import Mathlib

/-!
sensu-opentsdb-handler.

A shallow embedding of `main.go` of the Sensu OpenTSDB handler: the line
formatter `MetricPointToOpenTSDBString` with its tag helpers, the validation
`checkArgs`, the connector `connect` and the handler `executeHandler`.

Modelling conventions.

* Go strings are Lean strings; the only byte the program inspects is the
  ASCII space, which never occurs inside a multi-byte UTF-8 sequence.
* The process-wide `handlerConfig` is passed explicitly as `cfg`.
* A Go `map[string]string` is an association list with pairwise distinct
  keys (`GoMap`).  The order in which `range` visits a map is not specified
  by Go; every `range` over a map takes a `RangeOrder`, an arbitrary
  reordering of the entries, and the formatter receives a stream `ρ` of
  them, one per `range` it executes.
* `MetricPoint.Value` is a `float64`; only its `%v` rendering is used, and
  that rendering is the parameter `fmtV`.
* Tags are values: the `*MetricTag` elements of a point are taken non-nil
  and pairwise distinct, as JSON decoding of tag objects produces them.
* The network is a trace of `Effect`s; the outcome of the `k`-th `net.Dial`
  is given by `dial k` (`none` is success).  Waiting between connection
  attempts is not part of the trace.
-/

namespace OpenTSDB

/-! ## Go library functions used by the program -/

/-- Go `strings.ReplaceAll(s, old, new)` for a one-byte `old`: every
occurrence of `old` is replaced by `new`, all other characters are kept. -/
def ReplaceAll (s : String) (old : Char) (new : String) : String :=
  ⟨s.data.flatMap fun c => if c = old then new.data else [c]⟩

/-- Go `strings.Contains(s, substr)` for a one-byte `substr`. -/
def Contains (s : String) (substr : Char) : Bool :=
  decide (substr ∈ s.data)

/-- Go `strings.Join(elems, sep)`. -/
def Join : List String → String → String
  | [], _ => ""
  | [a], _ => a
  | a :: b :: rest, sep => a ++ sep ++ Join (b :: rest) sep

/-- Go `%v` of an `int64`: the decimal rendering, with a leading `-` for a
negative number. -/
def fmtInt64 (i : Int) : String :=
  if i < 0 then "-" ++ Nat.repr i.natAbs else Nat.repr i.natAbs

/-- A Go `float64`, as its IEEE-754 bit pattern. -/
structure Float64 where
  bits : Nat
  deriving DecidableEq

/-- A Go `map[string]string`. -/
abbrev GoMap := AList (fun _ : String => String)

/-- The order in which one `range` statement visits the entries of a map:
some reordering of the entries. -/
structure RangeOrder where
  order : List (Sigma fun _ : String => String) → List (Sigma fun _ : String => String)
  perm : ∀ l, (order l).Perm l

/-- Visit the entries in the order in which they are stored. -/
def RangeOrder.stored : RangeOrder := ⟨fun l => l, fun l => List.Perm.refl l⟩

/-- Visit the entries in the reverse of the order in which they are stored. -/
def RangeOrder.reversed : RangeOrder := ⟨List.reverse, List.reverse_perm⟩

/-! ## Data model (`corev2`) and configuration -/

/-- The `corev2.MetricTag` record. -/
structure MetricTag where
  Name : String
  Value : String
  deriving DecidableEq

/-- The `corev2.MetricPoint` record. -/
structure MetricPoint where
  Name : String
  Value : Float64
  Timestamp : Int
  Tags : List MetricTag
  deriving DecidableEq

/-- The `corev2.Metrics` record; an element of `Points` may be nil. -/
structure Metrics where
  Points : List (Option MetricPoint)

/-- The `corev2.Entity` record, reduced to the field the handler reads. -/
structure Entity where
  Name : String

/-- The `corev2.Event` record, reduced to what the handler reads; `Metrics`
is a pointer and may be nil. -/
structure Event where
  Entity : Entity
  Metrics : Option Metrics

/-- The method `(*Event).HasMetrics`: `e.Metrics != nil`. -/
def Event.HasMetrics (e : Event) : Bool := e.Metrics.isSome

/-- The configuration `HandlerConfig` (main.go 15-49). -/
structure HandlerConfig where
  Host : String
  Port : String
  TagHost : Bool
  Tags : GoMap
  PrefixEntityName : Bool
  Prefix : String
  Retries : Nat
  RetryDelay : Nat
  SpaceReplacement : String

/-! ## Tag helpers (main.go 270-316) -/

/-- Go `MetricTagsToKVString` (main.go 272-280). -/
def MetricTagsToKVString (tags : List MetricTag) : String :=
  Join (tags.map fun tag => tag.Name ++ "=" ++ tag.Value) " "

/-- Go `MetricTagsToMap` (main.go 284-292). -/
def MetricTagsToMap (tags : List MetricTag) : GoMap :=
  tags.foldl (fun m mt => m.insert mt.Name mt.Value) ∅

/-- Go `MapToMetricTags` (main.go 296-304); `ρ` is the order of its `range`. -/
def MapToMetricTags (ρ : RangeOrder) (m : GoMap) : List MetricTag :=
  (ρ.order m.entries).map fun kv => { Name := kv.1, Value := kv.2 }

/-- Go `MergeMetricTags` (main.go 308-316); `ρ` is the order of the `range`
of the final `MapToMetricTags`. -/
def MergeMetricTags (ρ : RangeOrder) (x y : List MetricTag) : List MetricTag :=
  let m := MetricTagsToMap x
  let m := y.foldl (fun m mt => m.insert mt.Name mt.Value) m
  MapToMetricTags ρ m

/-! ## The line formatter (main.go 228-268) -/

/-- Go `MetricPointToOpenTSDBString` (main.go 228-268).  The result is the
returned string together with the point as the call leaves it (the call
assigns to `point.Tags`).  `ρ 0` orders the `range` of
`MapToMetricTags(handlerConfig.Tags)`, `ρ 1` that of the first merge and
`ρ 2` that of the host-tag merge. -/
def MetricPointToOpenTSDBString (cfg : HandlerConfig) (fmtV : Float64 → String)
    (ρ : Nat → RangeOrder) (point : Option MetricPoint) (entityName : String) :
    String × Option MetricPoint :=
  match point with
  | none => ("", none)
  | some point =>
    let entityName := ReplaceAll entityName ' ' cfg.SpaceReplacement
    let point := { point with
      Tags := point.Tags.map fun (tag : MetricTag) =>
        { Name := ReplaceAll tag.Name ' ' cfg.SpaceReplacement,
          Value := ReplaceAll tag.Value ' ' cfg.SpaceReplacement } }
    let name := if cfg.Prefix ≠ "" then cfg.Prefix ++ "." else ""
    let name := if cfg.PrefixEntityName then name ++ entityName ++ "." else name
    let name := name ++ point.Name
    let point := { point with
      Tags := MergeMetricTags (ρ 1) (MapToMetricTags (ρ 0) cfg.Tags) point.Tags }
    let point :=
      if cfg.TagHost ∨ point.Tags.length = 0 then
        { point with
          Tags := MergeMetricTags (ρ 2) point.Tags [{ Name := "host", Value := entityName }] }
      else point
    let tags := MetricTagsToKVString point.Tags
    ("put " ++ name ++ " " ++ fmtInt64 point.Timestamp ++ " " ++ fmtV point.Value ++ " "
      ++ tags ++ "\n", some point)

/-! ## Validation (main.go 174-196) -/

/-- Go `checkArgs` (main.go 174-196): `none` is the nil error.  The `range`
over `handlerConfig.Tags` returns the same error at whichever offending
entry it meets first, so its order does not show in the result. -/
def checkArgs (cfg : HandlerConfig) (event : Event) : Option String :=
  if !event.HasMetrics then some "event does not contain metrics"
  else if cfg.Host = "" then some "OpenTSDB host cannot be empty"
  else if Contains cfg.Prefix ' ' then some "prefix cannot contain spaces"
  else if cfg.Tags.entries.any fun kv => Contains kv.1 ' ' || Contains kv.2 ' ' then
    some "tags cannot contain spaces"
  else none

/-! ## The connector (main.go 216-226) -/

/-- The loop of `retry.Do` (avast/retry-go, the releases imported without a
version suffix) under the options `Attempts(attempts)` and `Delay(..)`, the
other options at their defaults (every error is retried).  `f k` is the
error of the `k`-th call of the retried function, `none` for nil; `n` is the
loop counter and `errorLog` the errors logged so far.  The first argument
bounds the iterations.  The result is the returned error (`none` for nil;
otherwise the logged errors) and the number of calls made so far. -/
def retryLoop (f : Nat → Option String) (attempts : Nat) :
    Nat → Nat → List String → Option (List String) × Nat
  | 0, n, errorLog => (some errorLog, n)
  | fuel + 1, n, errorLog =>
    if n < attempts then
      match f n with
      | some err =>
        -- `errorLog[n] = err`; on the last attempt leave the loop without waiting
        if n = attempts - 1 then (some (errorLog ++ [err]), n + 1)
        else retryLoop f attempts fuel (n + 1) (errorLog ++ [err])
      | none => (none, n + 1)
    else (some errorLog, n)

/-- The call `retry.Do(f, retry.Attempts(attempts), ..)`: the loop starts at
`n = 0` and makes at most `attempts` iterations. -/
def retryDo (f : Nat → Option String) (attempts : Nat) : Option (List String) × Nat :=
  retryLoop f attempts attempts 0 []

/-- Go `connect` (main.go 216-226): the retried function is one `net.Dial`,
whose `k`-th outcome is `dial k`.  The result is the returned error and the
number of dial attempts made. -/
def connect (cfg : HandlerConfig) (dial : Nat → Option String) : Option (List String) × Nat :=
  retryDo dial cfg.Retries

/-! ## Go `fmt.Fprintf` called with a format and no operands -/

/-- The digit loop of `parsenum` of Go's `fmt`: the number read so far, whether
a digit was read, and the unread rest.  A number above `1e6` gives up and
consumes all of its input. -/
def parsenumLoop : List Char → Nat → Bool → Nat × Bool × List Char
  | [], num, isnum => (num, isnum, [])
  | c :: cs, num, isnum =>
    if '0' ≤ c ∧ c ≤ '9' then
      if num > 1000000 then (0, false, [])
      else parsenumLoop cs (num * 10 + (c.toNat - '0'.toNat)) true
    else (num, isnum, c :: cs)

/-- The function `parsenum` of Go's `fmt` on the input `s`. -/
def parsenum (s : List Char) : Nat × Bool × List Char := parsenumLoop s 0 false

/-- The function `parseArgNumber` of Go's `fmt` on a format that starts with
`[`: the number of characters to skip and whether `[n]` was well formed (the
index itself is never in range when there are no operands). -/
def parseArgNumber (format : List Char) : Nat × Bool :=
  if format.length < 3 then (1, false)
  else
    let inner := format.tail.takeWhile fun c => c ≠ ']'
    if inner.length < format.tail.length then
      match parsenum inner with
      | (_, true, []) => (inner.length + 2, true)
      | _ => (inner.length + 2, false)
    else (1, false)

/-- The method `argNumber` of Go's `fmt` with no operands: the rest of the
format, whether an index was found, and the flag `goodArgNum`. -/
def argNumber (s : List Char) (good : Bool) : List Char × Bool × Bool :=
  match s with
  | '[' :: _ =>
    let r := parseArgNumber s
    (s.drop r.1, r.2, false)
  | _ => (s, false, good)

/-- One verb of `doPrintf` of Go's `fmt` with no operands; `s` is the format
after the `%`.  The result is the text written and the rest of the format. -/
def doVerb (s : List Char) : List Char × List Char :=
  -- flags
  let s := s.dropWhile fun c => c = '#' ∨ c = '0' ∨ c = '+' ∨ c = '-' ∨ c = ' '
  -- explicit argument index
  let (s, afterIndex, good) := argNumber s true
  -- width
  let (out, s, afterIndex, good) :=
    match s with
    | '*' :: s1 => ("%!(BADWIDTH)".data, s1, false, good)
    | _ =>
      let (_, widPresent, s1) := parsenum s
      ([], s1, afterIndex, good && !(afterIndex && widPresent))
  -- precision
  let (out, s, afterIndex, good) :=
    match s with
    | '.' :: s1 =>
      let (s2, afterIndex, good) := argNumber s1 (good && !afterIndex)
      match s2 with
      | '*' :: s3 => (out ++ "%!(BADPREC)".data, s3, false, good)
      | _ =>
        let (_, _, s3) := parsenum s2
        (out, s3, afterIndex, good)
    | _ => (out, s, afterIndex, good)
  let (s, _, good) := if afterIndex then (s, afterIndex, good) else argNumber s good
  match s with
  | [] => (out ++ "%!(NOVERB)".data, [])
  | verb :: s1 =>
    if verb = '%' then (out ++ ['%'], s1)
    else if !good then (out ++ "%!".data ++ [verb] ++ "(BADINDEX)".data, s1)
    else (out ++ "%!".data ++ [verb] ++ "(MISSING)".data, s1)

/-- The loop of `doPrintf` of Go's `fmt` with no operands: text up to the
next `%` is copied, then one verb is processed.  The first argument bounds
the iterations. -/
def doPrintf : Nat → List Char → List Char
  | 0, _ => []
  | fuel + 1, format =>
    let lit := format.takeWhile fun c => c ≠ '%'
    match format.dropWhile fun c => c ≠ '%' with
    | [] => lit
    | _ :: rest =>
      let r := doVerb rest
      lit ++ r.1 ++ doPrintf fuel r.2

/-- The bytes that `fmt.Fprintf(w, format)` hands to `w.Write`.  Every
iteration of the loop consumes at least one character of the format. -/
def Fprintf (format : String) : String :=
  ⟨doPrintf (format.length + 1) format.data⟩

/-! ## The handler (main.go 198-214) -/

/-- What the handler does to the network, in order. -/
inductive Effect where
  | dial
  | write (bytes : String)
  | close
  deriving DecidableEq

/-- How a call of the handler ends. -/
inductive Outcome where
  | success
  | error (errs : List String)
  | nilDereference
  deriving DecidableEq

/-- The loop of `executeHandler` (main.go 204-211): one `Fprintf` per point,
its result ignored.  The formatter of the first point takes `ρ 0`, `ρ 1`,
`ρ 2`, that of the next point the following three, and so on. -/
def writePoints (cfg : HandlerConfig) (fmtV : Float64 → String) (entityName : String) :
    (Nat → RangeOrder) → List (Option MetricPoint) → List Effect
  | _, [] => []
  | ρ, point :: points =>
    Effect.write (Fprintf (MetricPointToOpenTSDBString cfg fmtV ρ point entityName).1)
      :: writePoints cfg fmtV entityName (fun k => ρ (k + 3)) points

/-- Go `executeHandler` (main.go 198-214).  When `connect` fails its error is
returned; otherwise the deferred `Close` runs when the function is left,
also when `event.Metrics` is nil and reading `event.Metrics.Points` stops
the function. -/
def executeHandler (cfg : HandlerConfig) (fmtV : Float64 → String) (ρ : Nat → RangeOrder)
    (dial : Nat → Option String) (event : Event) : Outcome × List Effect :=
  match connect cfg dial with
  | (some err, attempts) => (Outcome.error err, List.replicate attempts Effect.dial)
  | (none, attempts) =>
    match event.Metrics with
    | none => (Outcome.nilDereference, List.replicate attempts Effect.dial ++ [Effect.close])
    | some metrics =>
      (Outcome.success,
        List.replicate attempts Effect.dial
          ++ writePoints cfg fmtV event.Entity.Name ρ metrics.Points ++ [Effect.close])

/-- The bytes written to the session in the course of a trace. -/
def bytesWritten : List Effect → String
  | [] => ""
  | Effect.write b :: es => b ++ bytesWritten es
  | _ :: es => bytesWritten es

/-! ## The specification's reading of the formatter -/

/-- The value of the last tag of `tags` whose name is `n`, if there is one. -/
def lastValue : List MetricTag → String → Option String
  | [], _ => none
  | t :: ts, n =>
    match lastValue ts n with
    | some v => some v
    | none => if t.Name = n then some t.Value else none

/-- Spec 4.2 step 2: every space replaced by `config.spaceReplacement`. -/
def specSanitize (cfg : HandlerConfig) (s : String) : String :=
  ReplaceAll s ' ' cfg.SpaceReplacement

/-- Spec 4.2 step 2 on a tag sequence: name and value of each tag sanitized. -/
def specSanitizeTags (cfg : HandlerConfig) (tags : List MetricTag) : List MetricTag :=
  tags.map fun t => { Name := specSanitize cfg t.Name, Value := specSanitize cfg t.Value }

/-- Spec 4.2 step 3: `[prefix.][entityName.]pointName`. -/
def specName (cfg : HandlerConfig) (p : MetricPoint) (entityName : String) : String :=
  if cfg.Prefix = "" then
    if cfg.PrefixEntityName then specSanitize cfg entityName ++ "." ++ p.Name else p.Name
  else
    if cfg.PrefixEntityName then
      cfg.Prefix ++ "." ++ specSanitize cfg entityName ++ "." ++ p.Name
    else cfg.Prefix ++ "." ++ p.Name

/-- Spec 4.2 step 4: the value of tag `n` in the merged tag set; the point's
(sanitized) tags win over the configured ones. -/
def specMergedTag (cfg : HandlerConfig) (p : MetricPoint) (n : String) : Option String :=
  match lastValue (specSanitizeTags cfg p.Tags) n with
  | some v => some v
  | none => AList.lookup n cfg.Tags

/-- Spec 4.2 step 5: the host tag is merged in when `tagHost` is true or the
merged tag set is empty. -/
def specHostMerged (cfg : HandlerConfig) (p : MetricPoint) : Bool :=
  cfg.TagHost || (cfg.Tags.entries.isEmpty && p.Tags.isEmpty)

/-- Spec 4.2 steps 4 and 5: the value of tag `n` in the final tag set. -/
def specFinalTag (cfg : HandlerConfig) (p : MetricPoint) (entityName : String) (n : String) :
    Option String :=
  if specHostMerged cfg p = true ∧ n = "host" then some (specSanitize cfg entityName)
  else specMergedTag cfg p n

/-! ## Intermediate values of the formatter -/

/-- The tag list that the formatter serializes (main.go 258-264). -/
def serializedTags (cfg : HandlerConfig) (ρ : Nat → RangeOrder) (p : MetricPoint)
    (entityName : String) : List MetricTag :=
  let merged := MergeMetricTags (ρ 1) (MapToMetricTags (ρ 0) cfg.Tags) (specSanitizeTags cfg p.Tags)
  if cfg.TagHost ∨ merged.length = 0 then
    MergeMetricTags (ρ 2) merged [{ Name := "host", Value := specSanitize cfg entityName }]
  else merged

/-- The metric name that the formatter composes (main.go 246-254). -/
def composedName (cfg : HandlerConfig) (p : MetricPoint) (entityName : String) : String :=
  (if cfg.PrefixEntityName then
      (if cfg.Prefix ≠ "" then cfg.Prefix ++ "." else "") ++ specSanitize cfg entityName ++ "."
    else (if cfg.Prefix ≠ "" then cfg.Prefix ++ "." else "")) ++ p.Name

/-! ## Concrete inputs -/

/-- The defaults of the options (main.go 72-154), with an empty tag map. -/
def defaultConfig : HandlerConfig :=
  { Host := "localhost", Port := "4242", TagHost := true, Tags := ∅,
    PrefixEntityName := false, Prefix := "", Retries := 3, RetryDelay := 1,
    SpaceReplacement := "-" }

/-- The point of the tests of `main_test.go`, with the given name and tags;
its value is the `float64` 42. -/
def testPoint (name : String) (tags : List MetricTag) : MetricPoint :=
  { Name := name, Value := ⟨0x4045000000000000⟩, Timestamp := 1337, Tags := tags }

/-- A `%v` rendering that prints 42, the value of `testPoint`. -/
def fmt42 : Float64 → String := fun _ => "42"

/-- A configuration with `TagHost` and a configured tag named `host`. -/
def hostTaggedConfig : HandlerConfig :=
  { defaultConfig with Tags := AList.insert "host" "configured" ∅ }

/-- A configuration without `TagHost` and with one configured tag. -/
def dcTaggedConfig : HandlerConfig :=
  { defaultConfig with TagHost := false, Tags := AList.insert "dc" "us-east-1" ∅ }

/-- A dial that is refused twice and then succeeds. -/
def dialThirdTime : Nat → Option String :=
  fun j => if j < 2 then some "connection refused" else none

/-- A dial that is always refused. -/
def dialNever : Nat → Option String := fun _ => some "connection refused"

/-- An event of the entity `web` with one point named `disk.%used`. -/
def percentEvent : Event :=
  { Entity := { Name := "web" },
    Metrics := some { Points := [some (testPoint "disk.%used" [])] } }

/-- The loop of `executeHandler` (main.go 204-211) on a session whose `k`-th
`Write` returns the error `werr k` (`none` for nil): `fmt.Fprintf` hands the
bytes to `Write` and returns its error, and the statement at main.go 205
discards what `Fprintf` returns, so the loop goes on to the next point. -/
def writePointsOn (cfg : HandlerConfig) (fmtV : Float64 → String) (entityName : String)
    (werr : Nat → Option String) :
    (Nat → RangeOrder) → Nat → List (Option MetricPoint) → List Effect
  | _, _, [] => []
  | ρ, k, point :: points =>
    let bytes := Fprintf (MetricPointToOpenTSDBString cfg fmtV ρ point entityName).1
    -- the error that `Write` returns for these bytes; main.go 205 drops it
    let _ := werr k
    Effect.write bytes
      :: writePointsOn cfg fmtV entityName werr (fun j => ρ (j + 3)) (k + 1) points

/-- Go `executeHandler` (main.go 198-214) on a session whose `k`-th `Write`
returns the error `werr k`. -/
def executeHandlerOn (werr : Nat → Option String) (cfg : HandlerConfig)
    (fmtV : Float64 → String) (ρ : Nat → RangeOrder) (dial : Nat → Option String)
    (event : Event) : Outcome × List Effect :=
  match connect cfg dial with
  | (some err, attempts) => (Outcome.error err, List.replicate attempts Effect.dial)
  | (none, attempts) =>
    match event.Metrics with
    | none => (Outcome.nilDereference, List.replicate attempts Effect.dial ++ [Effect.close])
    | some metrics =>
      (Outcome.success,
        List.replicate attempts Effect.dial
          ++ writePointsOn cfg fmtV event.Entity.Name werr ρ 0 metrics.Points ++ [Effect.close])

/-- The number of `Write` calls in a trace. -/
def countWrites : List Effect → Nat
  | [] => 0
  | Effect.write _ :: es => countWrites es + 1
  | _ :: es => countWrites es

/-- The number of `Close` calls in a trace. -/
def countCloses : List Effect → Nat
  | [] => 0
  | Effect.close :: es => countCloses es + 1
  | _ :: es => countCloses es

/-- An event of the entity `web` with two points. -/
def twoPointEvent : Event :=
  { Entity := { Name := "web" },
    Metrics := some { Points := [some (testPoint "cpu.idle" []), some (testPoint "cpu.user" [])] } }

/-- A session on which every `Write` fails. -/
def brokenSession : Nat → Option String := fun _ => some "broken pipe"

/-- A session on which only the first `Write` fails. -/
def firstWriteFails : Nat → Option String :=
  fun k => if k = 0 then some "broken pipe" else none

/-- A configuration without `TagHost` whose one configured tag has a space in
its key. -/
def spacedTagConfig : HandlerConfig :=
  { defaultConfig with TagHost := false, Tags := AList.insert "data center" "dc1" ∅ }

/-! ## The tag section of a line, read back (spec 6, wire protocol) -/

/-- The tokens of the tag section `k` of a line: the pieces of `k` between
its spaces (`<tag1>=<val1> <tag2>=<val2> ...`). -/
def sectionTokens (k : String) : List String :=
  (k.data.splitOn ' ').map String.mk

/-- The tag that a token `<name>=<value>` denotes: the name is what precedes
the first `=`, the value what follows it. -/
def tokenTag (token : String) : MetricTag :=
  { Name := ⟨token.data.takeWhile fun c => c ≠ '='⟩,
    Value := ⟨(token.data.dropWhile fun c => c ≠ '=').drop 1⟩ }

/-- The tags that the tag section `k` of a line denotes, in order. -/
def sectionTags (k : String) : List MetricTag :=
  (sectionTokens k).map tokenTag

/-- The defaults, with the entity name prefixed to the metric name. -/
def entityPrefixConfig : HandlerConfig :=
  { defaultConfig with PrefixEntityName := true }

/-- The point of `main_test.go` whose tag holds spaces. -/
def spacedTagPoint : MetricPoint :=
  testPoint "cpu.idle" [⟨"data center", "us east 1"⟩]

/-! ## Lemmas on tag lists and maps -/

theorem lookup_foldl_insert (ts : List MetricTag) (m : GoMap) (n : String) :
    AList.lookup n (ts.foldl (fun m mt => m.insert mt.Name mt.Value) m) =
      match lastValue ts n with
      | some v => some v
      | none => AList.lookup n m := by
  induction ts generalizing m with
  | nil => simp [lastValue]
  | cons t ts ih =>
    rw [List.foldl_cons, ih, lastValue]
    cases h : lastValue ts n with
    | some v => rfl
    | none =>
      by_cases hn : t.Name = n
      · subst hn; simp
      · simp [hn, AList.lookup_insert_ne (Ne.symm hn)]

theorem lookup_MetricTagsToMap (ts : List MetricTag) (n : String) :
    AList.lookup n (MetricTagsToMap ts) = lastValue ts n := by
  unfold MetricTagsToMap
  rw [lookup_foldl_insert]
  cases lastValue ts n <;> simp

theorem lastValue_mem {ts : List MetricTag} {n v : String} (h : lastValue ts n = some v) :
    (⟨n, v⟩ : MetricTag) ∈ ts := by
  induction ts with
  | nil => simp [lastValue] at h
  | cons t ts ih =>
    rw [lastValue] at h
    cases h2 : lastValue ts n with
    | some w =>
      rw [h2] at h
      simp only [Option.some.injEq] at h
      subst h
      exact List.mem_cons_of_mem _ (ih h2)
    | none =>
      rw [h2] at h
      by_cases hn : t.Name = n
      · simp only [hn, if_true, Option.some.injEq] at h
        subst hn; subst h
        exact List.mem_cons_self _ _
      · simp [hn] at h

theorem lastValue_of_mem_nodup {ts : List MetricTag} {n v : String}
    (hnd : (ts.map fun t => t.Name).Nodup) (h : (⟨n, v⟩ : MetricTag) ∈ ts) :
    lastValue ts n = some v := by
  induction ts with
  | nil => simp at h
  | cons t ts ih =>
    rw [List.map_cons, List.nodup_cons] at hnd
    rw [lastValue]
    rcases List.mem_cons.1 h with h1 | h1
    · subst h1
      cases h2 : lastValue ts n with
      | some w =>
        exact absurd (List.mem_map.2 ⟨_, lastValue_mem h2, rfl⟩) hnd.1
      | none => simp
    · rw [ih hnd.2 h1]

theorem mem_MapToMetricTags (ρ : RangeOrder) (m : GoMap) (n v : String) :
    (⟨n, v⟩ : MetricTag) ∈ MapToMetricTags ρ m ↔ AList.lookup n m = some v := by
  unfold MapToMetricTags
  rw [List.mem_map]
  constructor
  · rintro ⟨kv, hkv, heq⟩
    have h1 : kv ∈ m.entries := (ρ.perm m.entries).mem_iff.1 hkv
    obtain ⟨k, w⟩ := kv
    simp only [MetricTag.mk.injEq] at heq
    obtain ⟨rfl, rfl⟩ := heq
    exact AList.mem_lookup_iff.2 h1
  · intro h
    exact ⟨⟨n, v⟩, (ρ.perm m.entries).mem_iff.2 (AList.mem_lookup_iff.1 h), rfl⟩

theorem names_MapToMetricTags (ρ : RangeOrder) (m : GoMap) :
    ((MapToMetricTags ρ m).map fun t => t.Name).Perm m.keys := by
  unfold MapToMetricTags
  rw [List.map_map]
  exact (ρ.perm m.entries).map _

theorem nodup_MapToMetricTags (ρ : RangeOrder) (m : GoMap) :
    ((MapToMetricTags ρ m).map fun t => t.Name).Nodup :=
  (names_MapToMetricTags ρ m).nodup_iff.2 m.keys_nodup

theorem length_MapToMetricTags (ρ : RangeOrder) (m : GoMap) :
    (MapToMetricTags ρ m).length = m.entries.length := by
  unfold MapToMetricTags
  rw [List.length_map]
  exact (ρ.perm m.entries).length_eq

theorem lastValue_MapToMetricTags (ρ : RangeOrder) (m : GoMap) (n : String) :
    lastValue (MapToMetricTags ρ m) n = AList.lookup n m := by
  cases h : AList.lookup n m with
  | some v =>
    exact lastValue_of_mem_nodup (nodup_MapToMetricTags ρ m) ((mem_MapToMetricTags ρ m n v).2 h)
  | none =>
    cases h2 : lastValue (MapToMetricTags ρ m) n with
    | none => rfl
    | some w =>
      have := (mem_MapToMetricTags ρ m n w).1 (lastValue_mem h2)
      rw [h] at this
      exact absurd this (by simp)

theorem lookup_MergeMetricTags (ρ : RangeOrder) (x y : List MetricTag) (n v : String) :
    (⟨n, v⟩ : MetricTag) ∈ MergeMetricTags ρ x y ↔
      (match lastValue y n with
        | some w => some w
        | none => lastValue x n) = some v := by
  unfold MergeMetricTags
  simp only
  rw [mem_MapToMetricTags, lookup_foldl_insert, lookup_MetricTagsToMap]

theorem entries_eq_nil_iff (m : GoMap) : m.entries = [] ↔ ∀ n, AList.lookup n m = none := by
  constructor
  · intro h n
    rw [AList.lookup_eq_none, AList.mem_keys, AList.keys, h]
    simp
  · intro h
    cases he : m.entries with
    | nil => rfl
    | cons kv rest =>
      obtain ⟨k, w⟩ := kv
      have : AList.lookup k m = some w := AList.mem_lookup_iff.2 (by rw [he]; exact List.mem_cons_self _ _)
      rw [h k] at this
      exact absurd this (by simp)

theorem lastValue_MergeMetricTags (ρ : RangeOrder) (x y : List MetricTag) (n : String) :
    lastValue (MergeMetricTags ρ x y) n =
      match lastValue y n with
      | some w => some w
      | none => lastValue x n := by
  unfold MergeMetricTags
  simp only
  rw [lastValue_MapToMetricTags, lookup_foldl_insert, lookup_MetricTagsToMap]

theorem nodup_MergeMetricTags (ρ : RangeOrder) (x y : List MetricTag) :
    ((MergeMetricTags ρ x y).map fun t => t.Name).Nodup :=
  nodup_MapToMetricTags ρ _

theorem mem_iff_lastValue {ts : List MetricTag} (hnd : (ts.map fun t => t.Name).Nodup)
    (n v : String) : (⟨n, v⟩ : MetricTag) ∈ ts ↔ lastValue ts n = some v :=
  ⟨lastValue_of_mem_nodup hnd, lastValue_mem⟩

theorem eq_nil_iff_lastValue (ts : List MetricTag) : ts = [] ↔ ∀ n, lastValue ts n = none := by
  constructor
  · rintro rfl n; rfl
  · intro h
    cases ts with
    | nil => rfl
    | cons t ts =>
      have := h t.Name
      rw [lastValue] at this
      cases h2 : lastValue ts t.Name with
      | some w => rw [h2] at this; exact absurd this (by simp)
      | none => rw [h2] at this; simp at this

theorem MetricPointToOpenTSDBString_some (cfg : HandlerConfig) (fmtV : Float64 → String)
    (ρ : Nat → RangeOrder) (p : MetricPoint) (e : String) :
    MetricPointToOpenTSDBString cfg fmtV ρ (some p) e =
      ("put " ++ composedName cfg p e ++ " " ++ fmtInt64 p.Timestamp ++ " " ++ fmtV p.Value
        ++ " " ++ MetricTagsToKVString (serializedTags cfg ρ p e) ++ "\n",
        some { p with Tags := serializedTags cfg ρ p e }) := by
  unfold MetricPointToOpenTSDBString serializedTags composedName specSanitizeTags specSanitize
  by_cases h : cfg.TagHost = true ∨
      (MergeMetricTags (ρ 1) (MapToMetricTags (ρ 0) cfg.Tags)
        (p.Tags.map fun (t : MetricTag) =>
          ({ Name := ReplaceAll t.Name ' ' cfg.SpaceReplacement,
             Value := ReplaceAll t.Value ' ' cfg.SpaceReplacement } : MetricTag))).length = 0
  · simp only [h, if_true]
  · simp only [h, if_false]

theorem composedName_eq (cfg : HandlerConfig) (p : MetricPoint) (e : String) :
    composedName cfg p e = specName cfg p e := by
  unfold composedName specName
  by_cases h1 : cfg.Prefix = "" <;> by_cases h2 : cfg.PrefixEntityName = true <;>
    simp [h1, h2]

theorem lastValue_merged (cfg : HandlerConfig) (ρ : Nat → RangeOrder) (p : MetricPoint)
    (n : String) :
    lastValue (MergeMetricTags (ρ 1) (MapToMetricTags (ρ 0) cfg.Tags)
      (specSanitizeTags cfg p.Tags)) n = specMergedTag cfg p n := by
  rw [lastValue_MergeMetricTags, lastValue_MapToMetricTags]
  rfl

theorem merged_length_eq_zero_iff (cfg : HandlerConfig) (ρ : Nat → RangeOrder) (p : MetricPoint) :
    (MergeMetricTags (ρ 1) (MapToMetricTags (ρ 0) cfg.Tags)
      (specSanitizeTags cfg p.Tags)).length = 0 ↔
      (cfg.Tags.entries.isEmpty && p.Tags.isEmpty) = true := by
  rw [List.length_eq_zero, eq_nil_iff_lastValue]
  simp only [lastValue_merged, Bool.and_eq_true, List.isEmpty_iff]
  constructor
  · intro h
    have hp : specSanitizeTags cfg p.Tags = [] := by
      rw [eq_nil_iff_lastValue]
      intro n
      have := h n
      unfold specMergedTag at this
      cases h2 : lastValue (specSanitizeTags cfg p.Tags) n with
      | none => rfl
      | some w => rw [h2] at this; exact absurd this (by simp)
    refine ⟨?_, ?_⟩
    · rw [entries_eq_nil_iff]
      intro n
      have := h n
      unfold specMergedTag at this
      rw [hp] at this
      exact this
    · unfold specSanitizeTags at hp
      exact List.map_eq_nil_iff.1 hp
  · rintro ⟨h1, h2⟩ n
    unfold specMergedTag specSanitizeTags
    rw [h2]
    exact (entries_eq_nil_iff _).1 h1 n

theorem serializedTags_host_cond (cfg : HandlerConfig) (ρ : Nat → RangeOrder) (p : MetricPoint) :
    (cfg.TagHost = true ∨ (MergeMetricTags (ρ 1) (MapToMetricTags (ρ 0) cfg.Tags)
      (specSanitizeTags cfg p.Tags)).length = 0) ↔ specHostMerged cfg p = true := by
  rw [merged_length_eq_zero_iff]
  unfold specHostMerged
  simp

theorem nodup_serializedTags (cfg : HandlerConfig) (ρ : Nat → RangeOrder) (p : MetricPoint)
    (e : String) : ((serializedTags cfg ρ p e).map fun t => t.Name).Nodup := by
  unfold serializedTags
  simp only
  split
  · exact nodup_MergeMetricTags _ _ _
  · exact nodup_MergeMetricTags _ _ _

theorem lastValue_serializedTags (cfg : HandlerConfig) (ρ : Nat → RangeOrder) (p : MetricPoint)
    (e n : String) : lastValue (serializedTags cfg ρ p e) n = specFinalTag cfg p e n := by
  unfold serializedTags specFinalTag
  simp only
  by_cases hc : specHostMerged cfg p = true
  · rw [if_pos ((serializedTags_host_cond cfg ρ p).2 hc), lastValue_MergeMetricTags,
      lastValue_merged]
    by_cases hn : n = "host"
    · subst hn
      simp [hc, lastValue]
    · have hn2 : ¬ ("host" = n) := fun h => hn h.symm
      simp [hn, hn2, lastValue]
  · rw [if_neg (fun h => hc ((serializedTags_host_cond cfg ρ p).1 h)), lastValue_merged]
    simp [hc]

theorem mem_serializedTags (cfg : HandlerConfig) (ρ : Nat → RangeOrder) (p : MetricPoint)
    (e n v : String) :
    (⟨n, v⟩ : MetricTag) ∈ serializedTags cfg ρ p e ↔ specFinalTag cfg p e n = some v := by
  rw [mem_iff_lastValue (nodup_serializedTags cfg ρ p e), lastValue_serializedTags]

theorem filter_name_eq_singleton {ts : List MetricTag} {n v : String}
    (hnd : (ts.map fun t => t.Name).Nodup) (h : (⟨n, v⟩ : MetricTag) ∈ ts) :
    ts.filter (fun t => decide (t.Name = n)) = [⟨n, v⟩] := by
  induction ts with
  | nil => simp at h
  | cons t ts ih =>
    rw [List.map_cons, List.nodup_cons] at hnd
    rcases List.mem_cons.1 h with h1 | h1
    · subst h1
      rw [List.filter_cons_of_pos (by simp)]
      congr 1
      rw [List.filter_eq_nil_iff]
      intro u hu hun
      simp only [decide_eq_true_eq] at hun
      exact hnd.1 (List.mem_map.2 ⟨u, hu, hun⟩)
    · have hne : t.Name ≠ n := fun heq =>
        hnd.1 (List.mem_map.2 ⟨_, h1, heq.symm⟩)
      rw [List.filter_cons_of_neg (by simp [hne])]
      exact ih hnd.2 h1

theorem not_mem_ReplaceAll (s r : String) (c : Char) (h : c ∉ r.data) :
    c ∉ (ReplaceAll s c r).data := by
  unfold ReplaceAll
  simp only [List.mem_flatMap, not_exists, not_and]
  intro a _ hc
  by_cases ha : a = c
  · rw [if_pos ha] at hc; exact h hc
  · rw [if_neg ha] at hc
    simp only [List.mem_singleton] at hc
    exact ha hc.symm

theorem Contains_eq_false {s : String} {c : Char} : Contains s c = false ↔ c ∉ s.data := by
  unfold Contains
  simp

theorem Contains_append (a b : String) (c : Char) :
    Contains (a ++ b) c = (Contains a c || Contains b c) := by
  unfold Contains
  rw [String.data_append, Bool.eq_iff_iff]
  simp

theorem Contains_specSanitize (cfg : HandlerConfig) (s : String)
    (h : Contains cfg.SpaceReplacement ' ' = false) : Contains (specSanitize cfg s) ' ' = false :=
  Contains_eq_false.2 (not_mem_ReplaceAll s _ ' ' (Contains_eq_false.1 h))

theorem mem_specSanitizeTags {cfg : HandlerConfig} {ts : List MetricTag} {t : MetricTag}
    (h : t ∈ specSanitizeTags cfg ts) :
    ∃ u ∈ ts, t = ⟨specSanitize cfg u.Name, specSanitize cfg u.Value⟩ := by
  unfold specSanitizeTags at h
  obtain ⟨u, hu, rfl⟩ := List.mem_map.1 h
  exact ⟨u, hu, rfl⟩

theorem retryLoop_success (f : Nat → Option String) (N k : Nat) (hk : k < N)
    (hsucc : f k = none) :
    ∀ (fuel n : Nat) (log : List String), n + fuel = N → n ≤ k →
      (∀ j, n ≤ j → j < k → f j ≠ none) → retryLoop f N fuel n log = (none, k + 1) := by
  intro fuel
  induction fuel with
  | zero => intro n log h1 h2 _; omega
  | succ fuel ih =>
    intro n log h1 h2 hfail
    have hn : n < N := by omega
    rw [retryLoop, if_pos hn]
    rcases Nat.eq_or_lt_of_le h2 with h3 | h3
    · subst h3
      rw [hsucc]
    · cases hf : f n with
      | none => exact absurd hf (hfail n (Nat.le_refl n) h3)
      | some err =>
        simp only
        rw [if_neg (by omega)]
        exact ih (n + 1) _ (by omega) (by omega) (fun j hj1 hj2 => hfail j (by omega) hj2)

theorem retryLoop_failure (f : Nat → Option String) (N : Nat) :
    ∀ (fuel n : Nat) (log : List String), n + fuel = N →
      (∀ j, n ≤ j → j < N → f j ≠ none) →
      retryLoop f N fuel n log = (some (log ++ (List.range' n fuel).filterMap f), N) := by
  intro fuel
  induction fuel with
  | zero =>
    intro n log h1 _
    have : n = N := by omega
    subst this
    simp [retryLoop]
  | succ fuel ih =>
    intro n log h1 hfail
    have hn : n < N := by omega
    rw [retryLoop, if_pos hn]
    cases hf : f n with
    | none => exact absurd hf (hfail n (Nat.le_refl n) hn)
    | some err =>
      simp only
      by_cases hlast : n = N - 1
      · have h0 : fuel = 0 := by omega
        subst h0
        rw [if_pos hlast]
        have : n + 1 = N := by omega
        simp [List.range', hf, this]
      · rw [if_neg hlast, ih (n + 1) _ (by omega) (fun j hj1 hj2 => hfail j (by omega) hj2)]
        simp [List.range', hf]

theorem writePointsOn_eq (cfg : HandlerConfig) (fmtV : Float64 → String) (entityName : String)
    (werr : Nat → Option String) (points : List (Option MetricPoint)) :
    ∀ (ρ : Nat → RangeOrder) (k : Nat),
      writePointsOn cfg fmtV entityName werr ρ k points = writePoints cfg fmtV entityName ρ points := by
  induction points with
  | nil => intro ρ k; rfl
  | cons p ps ih =>
    intro ρ k
    simp only [writePointsOn, writePoints]
    rw [ih]

theorem countWrites_append (a b : List Effect) :
    countWrites (a ++ b) = countWrites a + countWrites b := by
  induction a with
  | nil => simp [countWrites]
  | cons x xs ih =>
    cases x <;> simp [countWrites, ih]
    omega

theorem countCloses_append (a b : List Effect) :
    countCloses (a ++ b) = countCloses a + countCloses b := by
  induction a with
  | nil => simp [countCloses]
  | cons x xs ih =>
    cases x <;> simp [countCloses, ih]
    omega

theorem countWrites_replicate_dial (n : Nat) :
    countWrites (List.replicate n Effect.dial) = 0 := by
  induction n with
  | zero => rfl
  | succ n ih => simp [List.replicate_succ, countWrites, ih]

theorem countCloses_replicate_dial (n : Nat) :
    countCloses (List.replicate n Effect.dial) = 0 := by
  induction n with
  | zero => rfl
  | succ n ih => simp [List.replicate_succ, countCloses, ih]

theorem countWrites_writePoints (cfg : HandlerConfig) (fmtV : Float64 → String)
    (entityName : String) (points : List (Option MetricPoint)) :
    ∀ ρ : Nat → RangeOrder,
      countWrites (writePoints cfg fmtV entityName ρ points) = points.length := by
  induction points with
  | nil => intro ρ; rfl
  | cons p ps ih => intro ρ; simp [writePoints, countWrites, ih]

theorem countCloses_writePoints (cfg : HandlerConfig) (fmtV : Float64 → String)
    (entityName : String) (points : List (Option MetricPoint)) :
    ∀ ρ : Nat → RangeOrder,
      countCloses (writePoints cfg fmtV entityName ρ points) = 0 := by
  induction points with
  | nil => intro ρ; rfl
  | cons p ps ih => intro ρ; simp [writePoints, countCloses, ih]

theorem lastValue_isSome_iff (ts : List MetricTag) (n : String) :
    (lastValue ts n).isSome = true ↔ n ∈ ts.map fun t => t.Name := by
  induction ts with
  | nil => simp [lastValue]
  | cons t ts ih =>
    rw [lastValue, List.map_cons, List.mem_cons]
    cases h : lastValue ts n with
    | some v =>
      rw [h] at ih
      simp only [Option.isSome_some, true_iff] at ih
      simp [ih]
    | none =>
      rw [h] at ih
      have hn : ¬ (n ∈ ts.map fun t => t.Name) := fun hm => by
        have := ih.2 hm
        simp at this
      by_cases ht : t.Name = n
      · simp [ht]
      · have ht2 : ¬ (n = t.Name) := fun h2 => ht h2.symm
        simp only [ht, if_false, Option.isSome_none, Bool.false_eq_true, false_iff, not_or]
        exact ⟨ht2, hn⟩

theorem length_writePoints (cfg : HandlerConfig) (fmtV : Float64 → String)
    (entityName : String) (points : List (Option MetricPoint)) :
    ∀ ρ : Nat → RangeOrder,
      (writePoints cfg fmtV entityName ρ points).length = points.length := by
  induction points with
  | nil => intro ρ; rfl
  | cons p ps ih => intro ρ; simp [writePoints, ih]

theorem intercalate_go_eq (s : String) (l : List String) :
    ∀ acc : String, String.intercalate.go acc s l =
      match l with
      | [] => acc
      | b :: rest => acc ++ s ++ Join (b :: rest) s := by
  induction l with
  | nil => intro acc; rfl
  | cons b rest ih =>
    intro acc
    rw [String.intercalate.go, ih]
    cases rest with
    | nil => rfl
    | cons c r =>
      simp only [Join, String.append_assoc]

theorem Join_eq_intercalate (ss : List String) (sep : String) :
    Join ss sep = String.intercalate sep ss := by
  cases ss with
  | nil => rfl
  | cons a rest =>
    rw [String.intercalate, intercalate_go_eq]
    cases rest with
    | nil => rfl
    | cons b r => rfl

theorem Join_append_singleton (init : List String) (a sep : String) :
    Join (init ++ [a]) sep = if init = [] then a else Join init sep ++ sep ++ a := by
  induction init with
  | nil => rfl
  | cons b rest ih =>
    cases rest with
    | nil => simp [Join]
    | cons c r =>
      have : (b :: c :: r) ++ [a] = b :: (c :: (r ++ [a])) := rfl
      rw [this, Join]
      have h2 : c :: (r ++ [a]) = (c :: r) ++ [a] := rfl
      rw [h2, ih]
      simp [Join, String.append_assoc]

theorem length_Join (ss : List String) (sep : String) :
    (Join ss sep).length = (ss.map String.length).sum + (ss.length - 1) * sep.length := by
  induction ss with
  | nil => simp [Join]
  | cons a rest ih =>
    cases rest with
    | nil => simp [Join]
    | cons b r =>
      rw [Join, String.length_append, String.length_append, ih]
      simp only [List.map_cons, List.sum_cons, List.length_cons, Nat.add_sub_cancel]
      ring

theorem digitChar_isDigit : ∀ n, n < 10 → (Nat.digitChar n).isDigit = true := by decide

theorem toDigitsCore_chars (fuel : Nat) :
    ∀ (n : Nat) (ds : List Char) (c : Char), c ∈ Nat.toDigitsCore 10 fuel n ds →
      c ∈ ds ∨ c.isDigit = true := by
  induction fuel with
  | zero => intro n ds c h; exact Or.inl h
  | succ fuel ih =>
    intro n ds c h
    rw [Nat.toDigitsCore] at h
    split_ifs at h
    · rcases List.mem_cons.1 h with h1 | h1
      · exact Or.inr (h1 ▸ digitChar_isDigit _ (Nat.mod_lt _ (by decide)))
      · exact Or.inl h1
    · rcases ih _ _ _ h with h1 | h1
      · rcases List.mem_cons.1 h1 with h2 | h2
        · exact Or.inr (h2 ▸ digitChar_isDigit _ (Nat.mod_lt _ (by decide)))
        · exact Or.inl h2
      · exact Or.inr h1

theorem repr_chars (n : Nat) (c : Char) (h : c ∈ (Nat.repr n).data) : c.isDigit = true := by
  unfold Nat.repr Nat.toDigits List.asString at h
  rcases toDigitsCore_chars _ _ _ _ h with h1 | h1
  · simp at h1
  · exact h1

theorem fmtInt64_chars (i : Int) (c : Char) (h : c ∈ (fmtInt64 i).data) :
    c = '-' ∨ c.isDigit = true := by
  unfold fmtInt64 at h
  split_ifs at h
  · rw [String.data_append, List.mem_append] at h
    rcases h with h1 | h1
    · left; simpa using h1
    · exact Or.inr (repr_chars _ _ h1)
  · exact Or.inr (repr_chars _ _ h)

theorem Contains_ReplaceAll (s r : String) (old c : Char) (hs : Contains s c = false)
    (hr : Contains r c = false) : Contains (ReplaceAll s old r) c = false := by
  rw [Contains_eq_false] at hs hr ⊢
  unfold ReplaceAll
  simp only [List.mem_flatMap, not_exists, not_and]
  intro a ha hc
  by_cases h : a = old
  · rw [if_pos h] at hc; exact hr hc
  · rw [if_neg h] at hc
    simp only [List.mem_singleton] at hc
    exact hs (hc ▸ ha)

theorem Contains_specName (cfg : HandlerConfig) (p : MetricPoint) (e : String) (c : Char)
    (hdot : Contains "." c = false) (hpre : Contains cfg.Prefix c = false)
    (he : Contains (specSanitize cfg e) c = false) (hname : Contains p.Name c = false) :
    Contains (specName cfg p e) c = false := by
  unfold specName
  split_ifs <;> simp [Contains_append, he, hdot, hpre, hname]

theorem serializedTags_Contains (cfg : HandlerConfig) (ρ : Nat → RangeOrder) (p : MetricPoint)
    (e : String) (c : Char) (hhost : Contains "host" c = false)
    (he : Contains (specSanitize cfg e) c = false)
    (hp : ∀ t ∈ specSanitizeTags cfg p.Tags, Contains t.Name c = false ∧ Contains t.Value c = false)
    (hc : ∀ kv ∈ cfg.Tags.entries, Contains kv.1 c = false ∧ Contains kv.2 c = false) :
    ∀ t ∈ serializedTags cfg ρ p e, Contains t.Name c = false ∧ Contains t.Value c = false := by
  intro t ht
  obtain ⟨n, v⟩ := t
  rw [mem_serializedTags] at ht
  unfold specFinalTag at ht
  split_ifs at ht with hm
  · simp only [Option.some.injEq] at ht
    subst ht
    rw [hm.2]
    exact ⟨hhost, he⟩
  · unfold specMergedTag at ht
    cases hl : lastValue (specSanitizeTags cfg p.Tags) n with
    | some w =>
      rw [hl] at ht
      simp only [Option.some.injEq] at ht
      subst ht
      exact hp _ (lastValue_mem hl)
    | none =>
      rw [hl] at ht
      exact hc ⟨n, v⟩ (AList.mem_lookup_iff.1 ht)

theorem specSanitizeTags_Contains (cfg : HandlerConfig) (ts : List MetricTag) (c : Char)
    (hr : Contains cfg.SpaceReplacement c = false)
    (hp : ∀ t ∈ ts, Contains t.Name c = false ∧ Contains t.Value c = false) :
    ∀ t ∈ specSanitizeTags cfg ts, Contains t.Name c = false ∧ Contains t.Value c = false := by
  intro t ht
  obtain ⟨u, hu, rfl⟩ := mem_specSanitizeTags ht
  exact ⟨Contains_ReplaceAll _ _ _ _ (hp u hu).1 hr, Contains_ReplaceAll _ _ _ _ (hp u hu).2 hr⟩

theorem specSanitizeTags_no_space (cfg : HandlerConfig) (ts : List MetricTag)
    (hr : Contains cfg.SpaceReplacement ' ' = false) :
    ∀ t ∈ specSanitizeTags cfg ts,
      Contains t.Name ' ' = false ∧ Contains t.Value ' ' = false := by
  intro t ht
  obtain ⟨u, _, rfl⟩ := mem_specSanitizeTags ht
  exact ⟨Contains_specSanitize cfg _ hr, Contains_specSanitize cfg _ hr⟩

theorem Contains_Join (ss : List String) (sep : String) (c : Char)
    (hs : ∀ s ∈ ss, Contains s c = false) (hsep : Contains sep c = false) :
    Contains (Join ss sep) c = false := by
  induction ss with
  | nil => rw [Join, Contains_eq_false]; simp
  | cons a rest ih =>
    cases rest with
    | nil => exact hs a (List.mem_cons_self _ _)
    | cons b r =>
      rw [Join, Contains_append, Contains_append, hs a (List.mem_cons_self _ _), hsep,
        ih (fun s h => hs s (List.mem_cons_of_mem _ h))]
      rfl

theorem Contains_MetricTagsToKVString (tags : List MetricTag) (c : Char)
    (hsp : Contains " " c = false) (heq : Contains "=" c = false)
    (ht : ∀ t ∈ tags, Contains t.Name c = false ∧ Contains t.Value c = false) :
    Contains (MetricTagsToKVString tags) c = false := by
  unfold MetricTagsToKVString
  apply Contains_Join _ _ _ _ hsp
  intro s hs
  obtain ⟨t, htm, rfl⟩ := List.mem_map.1 hs
  rw [Contains_append, Contains_append, (ht t htm).1, (ht t htm).2, heq]
  rfl

theorem Contains_fmtInt64 (i : Int) (c : Char) (h1 : c ≠ '-') (h2 : c.isDigit = false) :
    Contains (fmtInt64 i) c = false := by
  rw [Contains_eq_false]
  intro h
  rcases fmtInt64_chars i c h with h3 | h3
  · exact h1 h3
  · rw [h2] at h3; exact absurd h3 (by simp)

theorem intercalate_cons_cons {α : Type} (sep a b : List α) (l : List (List α)) :
    List.intercalate sep (a :: b :: l) = a ++ sep ++ List.intercalate sep (b :: l) := by
  simp [List.intercalate, List.intersperse]

theorem Join_data (ss : List String) (sep : String) :
    (Join ss sep).data = List.intercalate sep.data (ss.map String.data) := by
  induction ss with
  | nil => rfl
  | cons a rest ih =>
    cases rest with
    | nil => simp [Join, List.intercalate]
    | cons b r =>
      rw [Join, String.data_append, String.data_append, ih]
      simp only [List.map_cons]
      rw [intercalate_cons_cons]

theorem count_intercalate {α : Type} [DecidableEq α] (x : α) (ls : List (List α))
    (hx : ∀ l ∈ ls, x ∉ l) (hls : ls ≠ []) :
    List.count x (List.intercalate [x] ls) = ls.length - 1 := by
  induction ls with
  | nil => exact absurd rfl hls
  | cons a rest ih =>
    cases rest with
    | nil =>
      simp only [List.intercalate, List.intersperse, List.flatten_cons, List.flatten_nil,
        List.append_nil, List.length_singleton, Nat.sub_self]
      exact List.count_eq_zero_of_not_mem (hx a (List.mem_cons_self _ _))
    | cons b r =>
      rw [intercalate_cons_cons, List.count_append, List.count_append,
        List.count_eq_zero_of_not_mem (hx a (List.mem_cons_self _ _)),
        ih (fun l h => hx l (List.mem_cons_of_mem _ h)) (by simp)]
      simp
      omega

theorem serializedTags_ne_nil (cfg : HandlerConfig) (ρ : Nat → RangeOrder) (p : MetricPoint)
    (e : String) : serializedTags cfg ρ p e ≠ [] := by
  by_cases hm : specHostMerged cfg p = true
  · have : (⟨"host", specSanitize cfg e⟩ : MetricTag) ∈ serializedTags cfg ρ p e := by
      rw [mem_serializedTags]
      unfold specFinalTag
      rw [if_pos ⟨hm, rfl⟩]
    exact List.ne_nil_of_mem this
  · have hc := fun h => hm ((serializedTags_host_cond cfg ρ p).1 h)
    unfold serializedTags
    simp only
    rw [if_neg hc]
    intro h
    exact hc (Or.inr (by rw [h]; rfl))

theorem line_body_data (name ts val : String) (tags : List MetricTag) (h : tags ≠ []) :
    ("put " ++ name ++ " " ++ ts ++ " " ++ val ++ " " ++ MetricTagsToKVString tags).data =
      List.intercalate [' '] ("put".data :: name.data :: ts.data :: val.data
        :: tags.map fun t => (t.Name ++ "=" ++ t.Value).data) := by
  cases tags with
  | nil => exact absurd rfl h
  | cons t rest =>
    unfold MetricTagsToKVString
    simp only [List.map_cons]
    rw [intercalate_cons_cons, intercalate_cons_cons, intercalate_cons_cons,
      intercalate_cons_cons]
    simp only [String.data_append, Join_data, List.map_cons, List.map_map]
    have hf : (String.data ∘ fun (tag : MetricTag) => tag.Name ++ "=" ++ tag.Value) =
        fun t => t.Name.data ++ ['='] ++ t.Value.data := by
      funext u
      simp [String.data_append]
    rw [hf]
    simp only [List.append_assoc, List.cons_append, List.nil_append]

theorem ReplaceAll_of_not_mem (s r : String) (c : Char) (h : Contains s c = false) :
    ReplaceAll s c r = s := by
  rw [Contains_eq_false] at h
  unfold ReplaceAll
  have : ∀ l : List Char, c ∉ l → (l.flatMap fun a => if a = c then r.data else [a]) = l := by
    intro l
    induction l with
    | nil => intro _; rfl
    | cons a l ih =>
      intro hl
      rw [List.flatMap_cons, ih (fun hm => hl (List.mem_cons_of_mem _ hm)),
        if_neg (fun (hac : a = c) => hl (hac ▸ List.mem_cons_self _ _))]
      rfl
  rw [this s.data h]

theorem specSanitizeTags_of_no_space (cfg : HandlerConfig) (ts : List MetricTag)
    (h : ∀ t ∈ ts, Contains t.Name ' ' = false ∧ Contains t.Value ' ' = false) :
    specSanitizeTags cfg ts = ts := by
  unfold specSanitizeTags specSanitize
  induction ts with
  | nil => rfl
  | cons t ts ih =>
    rw [List.map_cons, ih (fun u hu => h u (List.mem_cons_of_mem _ hu)),
      ReplaceAll_of_not_mem _ _ _ (h t (List.mem_cons_self _ _)).1,
      ReplaceAll_of_not_mem _ _ _ (h t (List.mem_cons_self _ _)).2]

theorem specFinalTag_absorbs_config (cfg : HandlerConfig) (p : MetricPoint) (e n : String) :
    (match specFinalTag cfg p e n with
      | some v => some v
      | none => AList.lookup n cfg.Tags) = specFinalTag cfg p e n := by
  cases h : specFinalTag cfg p e n with
  | some v => rfl
  | none =>
    simp only
    unfold specFinalTag at h
    split_ifs at h
    unfold specMergedTag at h
    cases hl : lastValue (specSanitizeTags cfg p.Tags) n with
    | some w => rw [hl] at h; exact absurd h (by simp)
    | none => rw [hl] at h; exact h

theorem specFinalTag_again (cfg : HandlerConfig) (ρ : Nat → RangeOrder) (p : MetricPoint)
    (e n : String) (hrepl : Contains cfg.SpaceReplacement ' ' = false)
    (htags : ∀ kv ∈ cfg.Tags.entries, Contains kv.1 ' ' = false ∧ Contains kv.2 ' ' = false) :
    specFinalTag cfg { p with Tags := serializedTags cfg ρ p e } e n = specFinalTag cfg p e n := by
  have hF := serializedTags_Contains cfg ρ p e ' ' (by decide) (Contains_specSanitize cfg e hrepl)
    (specSanitizeTags_no_space cfg p.Tags hrepl) htags
  have hne := serializedTags_ne_nil cfg ρ p e
  have hmerged : specMergedTag cfg { p with Tags := serializedTags cfg ρ p e } n =
      specFinalTag cfg p e n := by
    unfold specMergedTag
    simp only
    rw [specSanitizeTags_of_no_space cfg _ hF, lastValue_serializedTags]
    exact specFinalTag_absorbs_config cfg p e n
  have hhost : specHostMerged cfg { p with Tags := serializedTags cfg ρ p e } = cfg.TagHost := by
    unfold specHostMerged
    simp only
    have : (serializedTags cfg ρ p e).isEmpty = false := by
      cases hs : serializedTags cfg ρ p e with
      | nil => exact absurd hs hne
      | cons _ _ => rfl
    rw [this]
    simp
  conv_lhs => unfold specFinalTag
  rw [hhost, hmerged]
  split_ifs with hc
  · unfold specFinalTag
    have hm : specHostMerged cfg p = true := by
      unfold specHostMerged
      simp [hc.1]
    rw [if_pos ⟨hm, hc.2⟩]
  · rfl

theorem MetricTagsToKVString_eq_intercalate (tags : List MetricTag) :
    MetricTagsToKVString tags =
      String.intercalate " " (tags.map fun t => t.Name ++ "=" ++ t.Value) := by
  unfold MetricTagsToKVString
  rw [Join_eq_intercalate]

theorem intercalate_space_data (toks : List String) :
    (String.intercalate " " toks).data = List.intercalate [' '] (toks.map String.data) := by
  rw [← Join_eq_intercalate, Join_data]

theorem sectionTokens_intercalate (toks : List String) (hne : toks ≠ [])
    (hsp : ∀ tok ∈ toks, Contains tok ' ' = false) :
    sectionTokens (String.intercalate " " toks) = toks := by
  unfold sectionTokens
  rw [intercalate_space_data, List.splitOn_intercalate _ ' ' _ (by simpa using hne),
    List.map_map]
  · have : (String.mk ∘ String.data) = id := by
      funext s
      rfl
    rw [this, List.map_id]
  · intro l hl
    obtain ⟨tok, htok, rfl⟩ := List.mem_map.1 hl
    exact Contains_eq_false.1 (hsp tok htok)

theorem takeWhile_append_cons {α : Type} (q : α → Bool) (l r : List α) (a : α)
    (hl : ∀ x ∈ l, q x = true) (ha : q a = false) :
    (l ++ a :: r).takeWhile q = l ∧ (l ++ a :: r).dropWhile q = a :: r := by
  induction l with
  | nil => simp [List.takeWhile, List.dropWhile, ha]
  | cons b l ih =>
    have hb := hl b (List.mem_cons_self _ _)
    have := ih (fun x hx => hl x (List.mem_cons_of_mem _ hx))
    simp [List.takeWhile, List.dropWhile, hb, this.1, this.2]

theorem tokenTag_render (n v : String) (hn : Contains n '=' = false) :
    tokenTag (n ++ "=" ++ v) = ⟨n, v⟩ := by
  unfold tokenTag
  have hd : (n ++ "=" ++ v).data = n.data ++ '=' :: v.data := by
    simp [String.data_append]
  have h := takeWhile_append_cons (fun c => decide (c ≠ '=')) n.data v.data '='
    (fun x hx => by
      have : x ≠ '=' := fun h => Contains_eq_false.1 hn (h ▸ hx)
      simpa using this)
    (by simp)
  rw [hd, h.1, h.2]
  rfl

theorem sectionTags_render (tags : List MetricTag) (hne : tags ≠ [])
    (hsp : ∀ t ∈ tags, Contains t.Name ' ' = false ∧ Contains t.Value ' ' = false)
    (heq : ∀ t ∈ tags, Contains t.Name '=' = false) :
    sectionTags (String.intercalate " " (tags.map fun t => t.Name ++ "=" ++ t.Value)) = tags := by
  unfold sectionTags
  rw [sectionTokens_intercalate _ (by simpa using hne), List.map_map]
  · have : ∀ l : List MetricTag, (∀ t ∈ l, Contains t.Name '=' = false) →
        l.map (tokenTag ∘ fun t => t.Name ++ "=" ++ t.Value) = l := by
      intro l
      induction l with
      | nil => intro _; rfl
      | cons t l ih =>
        intro h
        rw [List.map_cons, ih (fun u hu => h u (List.mem_cons_of_mem _ hu))]
        simp only [Function.comp]
        rw [tokenTag_render _ _ (h t (List.mem_cons_self _ _))]
    exact this tags heq
  · intro tok htok
    obtain ⟨t, ht, rfl⟩ := List.mem_map.1 htok
    rw [Contains_append, Contains_append, (hsp t ht).1, (hsp t ht).2]
    decide

theorem serializedTags_Name_Contains (cfg : HandlerConfig) (ρ : Nat → RangeOrder)
    (p : MetricPoint) (e : String) (c : Char) (hhost : Contains "host" c = false)
    (hp : ∀ t ∈ specSanitizeTags cfg p.Tags, Contains t.Name c = false)
    (hc : ∀ kv ∈ cfg.Tags.entries, Contains kv.1 c = false) :
    ∀ t ∈ serializedTags cfg ρ p e, Contains t.Name c = false := by
  intro t ht
  obtain ⟨n, v⟩ := t
  rw [mem_serializedTags] at ht
  unfold specFinalTag at ht
  split_ifs at ht with hm
  · rw [hm.2]
    exact hhost
  · unfold specMergedTag at ht
    cases hl : lastValue (specSanitizeTags cfg p.Tags) n with
    | some w => exact hp ⟨n, w⟩ (lastValue_mem hl)
    | none =>
      rw [hl] at ht
      exact hc ⟨n, v⟩ (AList.mem_lookup_iff.1 ht)

theorem sectionTags_serialized (cfg : HandlerConfig) (ρ : Nat → RangeOrder) (p : MetricPoint)
    (e : String) (hrepl : Contains cfg.SpaceReplacement ' ' = false)
    (hcfg : ∀ kv ∈ cfg.Tags.entries,
      Contains kv.1 ' ' = false ∧ Contains kv.2 ' ' = false ∧ Contains kv.1 '=' = false)
    (hpt : ∀ t ∈ p.Tags, Contains (ReplaceAll t.Name ' ' cfg.SpaceReplacement) '=' = false) :
    sectionTags (MetricTagsToKVString (serializedTags cfg ρ p e)) = serializedTags cfg ρ p e := by
  rw [MetricTagsToKVString_eq_intercalate]
  apply sectionTags_render _ (serializedTags_ne_nil cfg ρ p e)
  · exact serializedTags_Contains cfg ρ p e ' ' (by decide) (Contains_specSanitize cfg e hrepl)
      (specSanitizeTags_no_space cfg p.Tags hrepl) (fun kv h => ⟨(hcfg kv h).1, (hcfg kv h).2.1⟩)
  · apply serializedTags_Name_Contains cfg ρ p e '=' (by decide)
    · intro t ht
      obtain ⟨u, hu, rfl⟩ := mem_specSanitizeTags ht
      exact hpt u hu
    · exact fun kv h => (hcfg kv h).2.2

theorem MetricPointToOpenTSDBString_fst (cfg : HandlerConfig) (fmtV : Float64 → String)
    (ρ : Nat → RangeOrder) (p : MetricPoint) (e : String) :
    (MetricPointToOpenTSDBString cfg fmtV ρ (some p) e).1 =
      "put " ++ specName cfg p e ++ " " ++ fmtInt64 p.Timestamp ++ " " ++ fmtV p.Value
        ++ " " ++ MetricTagsToKVString (serializedTags cfg ρ p e) ++ "\n" := by
  rw [MetricPointToOpenTSDBString_some, composedName_eq]

theorem specFinalTag_host (cfg : HandlerConfig) (p : MetricPoint) (e : String)
    (h : specHostMerged cfg p = true) :
    specFinalTag cfg p e "host" = some (ReplaceAll e ' ' cfg.SpaceReplacement) := by
  unfold specFinalTag
  rw [if_pos ⟨h, rfl⟩]
  rfl

theorem mem_intersperse {α : Type} (sep : α) (l : List α) (a : α)
    (h : a ∈ l.intersperse sep) : a = sep ∨ a ∈ l := by
  induction l with
  | nil => simp at h
  | cons b rest ih =>
    cases rest with
    | nil => right; simpa using h
    | cons c r =>
      rw [List.intersperse_cons₂] at h
      rcases List.mem_cons.1 h with h1 | h1
      · right; rw [h1]; exact List.mem_cons_self _ _
      · rcases List.mem_cons.1 h1 with h2 | h2
        · left; exact h2
        · rcases ih h2 with h3 | h3
          · left; exact h3
          · right; exact List.mem_cons_of_mem _ h3

theorem exists_piece_of_mem (xs : List Char) (x c : Char) (hc : c ≠ x) (h : c ∈ xs) :
    ∃ piece ∈ xs.splitOn x, c ∈ piece := by
  have h1 : c ∈ List.intercalate [x] (xs.splitOn x) := by
    rw [List.intercalate_splitOn]
    exact h
  unfold List.intercalate at h1
  obtain ⟨l, hl, hcl⟩ := List.mem_flatten.1 h1
  rcases mem_intersperse _ _ _ hl with h2 | h2
  · rw [h2] at hcl
    exact absurd (List.mem_singleton.1 hcl) hc
  · exact ⟨l, h2, hcl⟩

theorem render_host (v : String) : ("host" : String) ++ "=" ++ v = "host=" ++ v := by
  rw [String.append_assoc]
  rw [← String.append_assoc]
  rfl

theorem mem_intercalate_of_mem {α : Type} (sep : List α) (ls : List (List α)) (l : List α)
    (c : α) (hl : l ∈ ls) (hc : c ∈ l) : c ∈ List.intercalate sep ls := by
  induction ls with
  | nil => simp at hl
  | cons a rest ih =>
    cases rest with
    | nil =>
      have : l = a := by simpa using hl
      subst this
      simpa [List.intercalate] using hc
    | cons b r =>
      rw [intercalate_cons_cons]
      rcases List.mem_cons.1 hl with h1 | h1
      · subst h1
        exact List.mem_append_left _ (List.mem_append_left _ hc)
      · exact List.mem_append_right _ (ih h1)

/-! ## The claims -/

/-- C3, refuted as stated: a point without tags, formatted with `TagHost` off
and one configured tag, gets no `host` tag. -/
theorem host_fallback_skipped_with_configured_tags :
    (testPoint "cpu.idle" []).Tags = [] ∧
    MetricPointToOpenTSDBString dcTaggedConfig fmt42 (fun _ => RangeOrder.stored)
        (some (testPoint "cpu.idle" [])) "webserver0" =
      ("put cpu.idle 1337 42 dc=us-east-1\n",
        some (testPoint "cpu.idle" [⟨"dc", "us-east-1"⟩])) := by
  decide

/-- C6: the metric-name field is the point's name, preceded by `Prefix.` when
`Prefix` is not empty and then by the sanitized entity name and a dot when
`PrefixEntityName` is true. -/
theorem metric_name_composition (cfg : HandlerConfig) (fmtV : Float64 → String)
    (ρ : Nat → RangeOrder) (p : MetricPoint) (e : String) :
    ∃ tags : List MetricTag,
      MetricPointToOpenTSDBString cfg fmtV ρ (some p) e =
        ("put " ++
          (if cfg.Prefix = "" then
            if cfg.PrefixEntityName = true then
              ReplaceAll e ' ' cfg.SpaceReplacement ++ "." ++ p.Name
            else p.Name
          else
            if cfg.PrefixEntityName = true then
              cfg.Prefix ++ "." ++ ReplaceAll e ' ' cfg.SpaceReplacement ++ "." ++ p.Name
            else cfg.Prefix ++ "." ++ p.Name)
          ++ " " ++ fmtInt64 p.Timestamp ++ " " ++ fmtV p.Value
          ++ " " ++ MetricTagsToKVString tags ++ "\n", some { p with Tags := tags }) := by
  refine ⟨serializedTags cfg ρ p e, ?_⟩
  rw [MetricPointToOpenTSDBString_some, composedName_eq]
  rfl

/-- C5, refuted as stated: a space of the point's name stays in the metric-name
field, and a `SpaceReplacement` that itself holds a space leaves spaces in the
tag names and values. -/
theorem spaces_remain :
    MetricPointToOpenTSDBString defaultConfig fmt42 (fun _ => RangeOrder.stored)
        (some (testPoint "cpu idle" [])) "web" =
      ("put cpu idle 1337 42 host=web\n", some (testPoint "cpu idle" [⟨"host", "web"⟩])) ∧
    MetricPointToOpenTSDBString { defaultConfig with TagHost := false, SpaceReplacement := " " }
        fmt42 (fun _ => RangeOrder.stored)
        (some (testPoint "cpu.idle" [⟨"data center", "us east 1"⟩])) "web" =
      ("put cpu.idle 1337 42 data center=us east 1\n",
        some (testPoint "cpu.idle" [⟨"data center", "us east 1"⟩])) := by
  decide

/-- C8: `checkArgs` returns an error exactly when the event has no metrics, or
`Host` is empty, or `Prefix` holds a space, or a configured tag holds a space
in its key or in its value. -/
theorem checkArgs_error_iff (cfg : HandlerConfig) (event : Event) :
    (checkArgs cfg event).isSome = true ↔
      (event.Metrics = none ∨ cfg.Host = "" ∨ ' ' ∈ cfg.Prefix.data ∨
        ∃ kv ∈ cfg.Tags.entries, ' ' ∈ kv.1.data ∨ ' ' ∈ kv.2.data) := by
  unfold checkArgs Event.HasMetrics Contains
  cases hm : event.Metrics with
  | none => simp
  | some ms =>
    by_cases hh : cfg.Host = ""
    · simp [hh]
    · by_cases hp : ' ' ∈ cfg.Prefix.data
      · simp [hh, hp]
      · by_cases ht : ∃ kv ∈ cfg.Tags.entries, ' ' ∈ kv.1.data ∨ ' ' ∈ kv.2.data
        · have : (cfg.Tags.entries.any fun kv =>
              decide (' ' ∈ kv.1.data) || decide (' ' ∈ kv.2.data)) = true := by
            rw [List.any_eq_true]
            obtain ⟨kv, hkv, h⟩ := ht
            exact ⟨kv, hkv, by simpa using h⟩
          simp [hh, hp, this, ht]
        · have : (cfg.Tags.entries.any fun kv =>
              decide (' ' ∈ kv.1.data) || decide (' ' ∈ kv.2.data)) = false := by
            rw [Bool.eq_false_iff, Ne, List.any_eq_true]
            rintro ⟨kv, hkv, h⟩
            exact ht ⟨kv, hkv, by simpa using h⟩
          simp only [Option.isSome_none, Bool.false_eq_true, hh, hp, false_or, false_iff,
            Option.isSome_some, Bool.not_true, if_false, decide_False, this, reduceCtorEq]
          exact ht

/-- C9: when the first `k` dials fail, `connect` succeeds after exactly `k + 1`
attempts if `k` is below `Retries` and the next dial succeeds, and returns an
error after exactly `Retries` attempts if `k` is `Retries`. -/
theorem connect_attempts (cfg : HandlerConfig) (dial : Nat → Option String) (k : Nat)
    (hfail : ∀ j, j < k → dial j ≠ none) :
    (k < cfg.Retries → dial k = none → connect cfg dial = (none, k + 1)) ∧
    (k = cfg.Retries →
      connect cfg dial = (some ((List.range cfg.Retries).filterMap dial), cfg.Retries)) := by
  constructor
  · intro hk hsucc
    exact retryLoop_success dial cfg.Retries k hk hsucc cfg.Retries 0 [] (by omega) (by omega)
      (fun j _ hj => hfail j hj)
  · intro hk
    subst hk
    unfold connect retryDo
    rw [retryLoop_failure dial cfg.Retries cfg.Retries 0 [] (by omega)
      (fun j _ hj => hfail j hj), List.range_eq_range']
    simp

/-- Witness of C9: three attempts allowed; a dial that succeeds at the third
attempt, and a dial that never succeeds. -/
theorem connect_attempts_witness :
    (∀ j, j < 2 → dialThirdTime j ≠ none) ∧
    ((2 < defaultConfig.Retries → dialThirdTime 2 = none →
        connect defaultConfig dialThirdTime = (none, 2 + 1)) ∧
      (2 = defaultConfig.Retries →
        connect defaultConfig dialThirdTime =
          (some ((List.range defaultConfig.Retries).filterMap dialThirdTime),
            defaultConfig.Retries))) ∧
    connect defaultConfig dialThirdTime = (none, 3) ∧
    connect defaultConfig dialNever =
      (some ["connection refused", "connection refused", "connection refused"], 3) :=
  ⟨by decide, connect_attempts defaultConfig dialThirdTime 2 (by decide),
    (connect_attempts defaultConfig dialThirdTime 2 (by decide)).1 (by decide) rfl,
    (connect_attempts defaultConfig dialNever 3 (fun _ _ => by simp [dialNever])).2 rfl⟩

/-- C10, the code at a name that holds `%`: the formatted line is used as the
format of `Fprintf`, so the bytes written differ from the line. -/
theorem executeHandler_percent_altered :
    (MetricPointToOpenTSDBString defaultConfig fmt42 (fun _ => RangeOrder.stored)
        (some (testPoint "disk.%used" [])) "web").1 = "put disk.%used 1337 42 host=web\n" ∧
    executeHandler defaultConfig fmt42 (fun _ => RangeOrder.stored) (fun _ => none)
        percentEvent =
      (Outcome.success,
        [Effect.dial, Effect.write "put disk.%!u(MISSING)sed 1337 42 host=web\n",
          Effect.close]) ∧
    bytesWritten (executeHandler defaultConfig fmt42 (fun _ => RangeOrder.stored)
        (fun _ => none) percentEvent).2 = "put disk.%!u(MISSING)sed 1337 42 host=web\n" := by
  decide

/-- C11: for an absent point the formatter returns the empty string (and no
point), whatever the entity name and the configuration. -/
theorem MetricPointToOpenTSDBString_nil (cfg : HandlerConfig) (fmtV : Float64 → String)
    (ρ : Nat → RangeOrder) (e : String) :
    MetricPointToOpenTSDBString cfg fmtV ρ none e = ("", none) := by
  unfold MetricPointToOpenTSDBString
  rfl

/-- C12, refuted as stated: on a session where every write fails the handler
still issues the write of the second point and returns success. -/
theorem write_failure_not_surfaced :
    brokenSession 0 = some "broken pipe" ∧
    executeHandlerOn brokenSession defaultConfig fmt42 (fun _ => RangeOrder.stored)
        (fun _ => none) twoPointEvent =
      (Outcome.success,
        [Effect.dial, Effect.write "put cpu.idle 1337 42 host=web\n",
          Effect.write "put cpu.user 1337 42 host=web\n", Effect.close]) := by
  decide

/-- C12, amended: when `connect` succeeds and the event has metrics, the
handler issues one write per point, in order, whatever writes fail on the
session, then closes the session and returns success. -/
theorem write_errors_ignored (werr : Nat → Option String) (cfg : HandlerConfig)
    (fmtV : Float64 → String) (ρ : Nat → RangeOrder) (dial : Nat → Option String)
    (event : Event) (attempts : Nat) (metrics : Metrics)
    (hc : connect cfg dial = (none, attempts)) (hm : event.Metrics = some metrics) :
    executeHandlerOn werr cfg fmtV ρ dial event =
      (Outcome.success,
        List.replicate attempts Effect.dial
          ++ writePoints cfg fmtV event.Entity.Name ρ metrics.Points ++ [Effect.close]) ∧
    countWrites (executeHandlerOn werr cfg fmtV ρ dial event).2 = metrics.Points.length := by
  have h : executeHandlerOn werr cfg fmtV ρ dial event =
      (Outcome.success,
        List.replicate attempts Effect.dial
          ++ writePoints cfg fmtV event.Entity.Name ρ metrics.Points ++ [Effect.close]) := by
    unfold executeHandlerOn
    rw [hc, hm]
    simp only
    rw [writePointsOn_eq]
  refine ⟨h, ?_⟩
  rw [h]
  simp only [countWrites_append, countWrites_replicate_dial, countWrites_writePoints]
  simp [countWrites]

/-- Witness of C12 amended: the first write fails, two points are written. -/
theorem write_errors_ignored_witness :
    connect defaultConfig (fun _ => none) = (none, 1) ∧
    twoPointEvent.Metrics =
      some { Points := [some (testPoint "cpu.idle" []), some (testPoint "cpu.user" [])] } ∧
    executeHandlerOn firstWriteFails defaultConfig fmt42 (fun _ => RangeOrder.stored)
        (fun _ => none) twoPointEvent =
      (Outcome.success,
        List.replicate 1 Effect.dial
          ++ writePoints defaultConfig fmt42 twoPointEvent.Entity.Name
            (fun _ => RangeOrder.stored)
            (Metrics.mk [some (testPoint "cpu.idle" []), some (testPoint "cpu.user" [])]).Points
          ++ [Effect.close]) ∧
    countWrites (executeHandlerOn firstWriteFails defaultConfig fmt42
        (fun _ => RangeOrder.stored) (fun _ => none) twoPointEvent).2 =
      (Metrics.mk [some (testPoint "cpu.idle" []), some (testPoint "cpu.user" [])]).Points.length :=
  ⟨rfl, rfl,
    write_errors_ignored firstWriteFails defaultConfig fmt42 (fun _ => RangeOrder.stored)
      (fun _ => none) twoPointEvent 1
      (Metrics.mk [some (testPoint "cpu.idle" []), some (testPoint "cpu.user" [])]) rfl rfl⟩

/-- C14, refuted as stated: the call replaces the tag sequence of the point by
the merged one, here with an added `host` tag. -/
theorem point_tags_replaced :
    (MetricPointToOpenTSDBString defaultConfig fmt42 (fun _ => RangeOrder.stored)
        (some (testPoint "cpu.idle" [⟨"dc", "us east"⟩])) "web").2 =
      some (testPoint "cpu.idle" [⟨"host", "web"⟩, ⟨"dc", "us-east"⟩]) := by
  decide

/-- C14, amended: the call leaves name, value and timestamp of the point as
they were and replaces its tag sequence by the serialized tag list: one tag per
name, holding exactly the entries of the specification's final tag set. -/
theorem point_after_call (cfg : HandlerConfig) (fmtV : Float64 → String)
    (ρ : Nat → RangeOrder) (p : MetricPoint) (e : String) :
    ∃ tags : List MetricTag,
      (MetricPointToOpenTSDBString cfg fmtV ρ (some p) e).2 =
        some { Name := p.Name, Value := p.Value, Timestamp := p.Timestamp, Tags := tags } ∧
      (MetricPointToOpenTSDBString cfg fmtV ρ (some p) e).1 =
        "put " ++ specName cfg p e ++ " " ++ fmtInt64 p.Timestamp ++ " " ++ fmtV p.Value
          ++ " " ++ MetricTagsToKVString tags ++ "\n" ∧
      (tags.map fun t => t.Name).Nodup ∧
      ∀ n v, (⟨n, v⟩ : MetricTag) ∈ tags ↔ specFinalTag cfg p e n = some v := by
  refine ⟨serializedTags cfg ρ p e, ?_, ?_, nodup_serializedTags cfg ρ p e,
    mem_serializedTags cfg ρ p e⟩
  · rw [MetricPointToOpenTSDBString_some]
  · rw [MetricPointToOpenTSDBString_some, composedName_eq]

/-- C15: when `connect` fails the handler returns its error and the trace holds
the dial attempts only; when `connect` succeeds the trace is the dial attempts,
then writes only, one per point, then a single close at the very end. -/
theorem executeHandler_close_once (cfg : HandlerConfig) (fmtV : Float64 → String)
    (ρ : Nat → RangeOrder) (dial : Nat → Option String) (event : Event) :
    match connect cfg dial with
    | (some err, attempts) =>
      executeHandler cfg fmtV ρ dial event =
        (Outcome.error err, List.replicate attempts Effect.dial)
    | (none, attempts) =>
      ∃ (out : Outcome) (writes : List Effect),
        executeHandler cfg fmtV ρ dial event =
          (out, List.replicate attempts Effect.dial ++ writes ++ [Effect.close]) ∧
        countCloses writes = 0 ∧ countWrites writes = writes.length ∧
        (∀ m, event.Metrics = some m → writes.length = m.Points.length) ∧
        countCloses (executeHandler cfg fmtV ρ dial event).2 = 1 := by
  cases h : connect cfg dial with
  | mk err attempts =>
    cases err with
    | some errs =>
      simp only
      unfold executeHandler
      rw [h]
    | none =>
      simp only
      cases hm : event.Metrics with
      | none =>
        refine ⟨Outcome.nilDereference, [], ?_, rfl, rfl, ?_, ?_⟩
        · unfold executeHandler
          rw [h, hm]
          simp
        · intro m hm2
          exact absurd hm2 (by simp)
        · unfold executeHandler
          rw [h, hm]
          simp [countCloses_append, countCloses_replicate_dial, countCloses]
      | some m =>
        refine ⟨Outcome.success, writePoints cfg fmtV event.Entity.Name ρ m.Points, ?_,
          countCloses_writePoints _ _ _ _ _, ?_, ?_, ?_⟩
        · unfold executeHandler
          rw [h, hm]
        · rw [countWrites_writePoints, length_writePoints]
        · intro m2 hm2
          simp only [Option.some.injEq] at hm2
          subst hm2
          exact length_writePoints _ _ _ _ _
        · unfold executeHandler
          rw [h, hm]
          simp [countCloses_append, countCloses_replicate_dial, countCloses_writePoints,
            countCloses]

/-- C16: read as a map, `MergeMetricTags x y` sends a name to the value of its
last occurrence in `y` if it occurs in `y`, else to the value of its last
occurrence in `x`; its keys are the names of `x` together with those of `y`. -/
theorem MergeMetricTags_as_map (ρ : RangeOrder) (x y : List MetricTag) (n : String) :
    AList.lookup n (MetricTagsToMap (MergeMetricTags ρ x y)) =
      (match lastValue y n with
        | some v => some v
        | none => lastValue x n) ∧
    (n ∈ (MetricTagsToMap (MergeMetricTags ρ x y)).keys ↔
      (n ∈ x.map fun t => t.Name) ∨ (n ∈ y.map fun t => t.Name)) := by
  have hl : AList.lookup n (MetricTagsToMap (MergeMetricTags ρ x y)) =
      (match lastValue y n with
        | some v => some v
        | none => lastValue x n) := by
    rw [lookup_MetricTagsToMap, lastValue_MergeMetricTags]
  refine ⟨hl, ?_⟩
  rw [← AList.mem_keys, ← AList.lookup_isSome, hl, ← lastValue_isSome_iff,
    ← lastValue_isSome_iff]
  cases lastValue y n <;> simp

/-- C18: `MetricTagsToKVString` is the `name=value` strings of the tags, in the
order of the list, with one space between neighbours and nothing before the
first or after the last; for the empty list it is the empty string. -/
theorem MetricTagsToKVString_joined (tags init rest : List MetricTag) (t : MetricTag) :
    MetricTagsToKVString tags =
      String.intercalate " " (tags.map fun u => u.Name ++ "=" ++ u.Value) ∧
    (MetricTagsToKVString tags).length =
      ((tags.map fun u => (u.Name ++ "=" ++ u.Value).length).sum) + (tags.length - 1) ∧
    MetricTagsToKVString [] = "" ∧
    (∃ s, MetricTagsToKVString (t :: rest) = t.Name ++ "=" ++ t.Value ++ s) ∧
    (∃ s, MetricTagsToKVString (init ++ [t]) = s ++ (t.Name ++ "=" ++ t.Value)) := by
  refine ⟨?_, ?_, rfl, ?_, ?_⟩
  · unfold MetricTagsToKVString
    rw [Join_eq_intercalate]
  · unfold MetricTagsToKVString
    rw [length_Join, List.map_map, List.length_map]
    have : (" " : String).length = 1 := by decide
    rw [this, Nat.mul_one]
    rfl
  · unfold MetricTagsToKVString
    cases rest with
    | nil => exact ⟨"", by simp [Join]⟩
    | cons u r =>
      exact ⟨" " ++ Join ((u :: r).map fun u => u.Name ++ "=" ++ u.Value) " ", by
        simp [Join, String.append_assoc]⟩
  · unfold MetricTagsToKVString
    rw [List.map_append, List.map_singleton, Join_append_singleton]
    by_cases h : (init.map fun u => u.Name ++ "=" ++ u.Value) = []
    · rw [if_pos h]
      exact ⟨"", by simp⟩
    · rw [if_neg h]
      exact ⟨Join (init.map fun u => u.Name ++ "=" ++ u.Value) " " ++ " ", by
        simp [String.append_assoc]⟩

/-- C13, refuted as stated: a line terminator in the point's name gives a
returned string with two line terminators. -/
theorem two_line_terminators :
    (MetricPointToOpenTSDBString defaultConfig fmt42 (fun _ => RangeOrder.stored)
        (some (testPoint "cpu\nidle" [])) "web").1 = "put cpu\nidle 1337 42 host=web\n" ∧
    (MetricPointToOpenTSDBString defaultConfig fmt42 (fun _ => RangeOrder.stored)
        (some (testPoint "cpu\nidle" [])) "web").1.data.count '\n' = 2 := by
  decide

/-- C13, amended: the returned string always ends with the line terminator, and
that is its only line terminator when `Prefix`, `SpaceReplacement`, the entity
name, the point's name, the rendering of its value and the names and values of
the configured tags and of the point's tags hold none. -/
theorem line_terminator (cfg : HandlerConfig) (fmtV : Float64 → String)
    (ρ : Nat → RangeOrder) (p : MetricPoint) (e : String) :
    (MetricPointToOpenTSDBString cfg fmtV ρ (some p) e).1.data.getLast? = some '\n' ∧
    (Contains cfg.Prefix '\n' = false → Contains cfg.SpaceReplacement '\n' = false →
      Contains e '\n' = false → Contains p.Name '\n' = false →
      Contains (fmtV p.Value) '\n' = false →
      (∀ kv ∈ cfg.Tags.entries, Contains kv.1 '\n' = false ∧ Contains kv.2 '\n' = false) →
      (∀ t ∈ p.Tags, Contains t.Name '\n' = false ∧ Contains t.Value '\n' = false) →
      (MetricPointToOpenTSDBString cfg fmtV ρ (some p) e).1.data.count '\n' = 1) := by
  rw [MetricPointToOpenTSDBString_some, composedName_eq]
  simp only
  constructor
  · rw [String.data_append]
    exact List.getLast?_concat _
  · intro hpre hrepl he hname hval hcfg hpt
    have hse : Contains (specSanitize cfg e) '\n' = false :=
      Contains_ReplaceAll _ _ _ _ he hrepl
    have hn : Contains (specName cfg p e) '\n' = false :=
      Contains_specName cfg p e '\n' (by decide) hpre hse hname
    have hk : Contains (MetricTagsToKVString (serializedTags cfg ρ p e)) '\n' = false :=
      Contains_MetricTagsToKVString _ _ (by decide) (by decide)
        (serializedTags_Contains cfg ρ p e '\n' (by decide) hse
          (specSanitizeTags_Contains cfg p.Tags '\n' hrepl hpt) hcfg)
    have hts : Contains (fmtInt64 p.Timestamp) '\n' = false :=
      Contains_fmtInt64 _ _ (by decide) (by decide)
    have hput : Contains "put " '\n' = false := by decide
    have hsp : Contains " " '\n' = false := by decide
    have hbody : Contains ("put " ++ specName cfg p e ++ " " ++ fmtInt64 p.Timestamp ++ " "
        ++ fmtV p.Value ++ " " ++ MetricTagsToKVString (serializedTags cfg ρ p e)) '\n'
        = false := by
      simp [Contains_append, hn, hk, hts, hput, hsp, hval]
    rw [String.data_append, List.count_append,
      List.count_eq_zero_of_not_mem (Contains_eq_false.1 hbody)]
    rfl

/-- Witness of C13 amended: the defaults and a tag with spaces. -/
theorem line_terminator_witness :
    (MetricPointToOpenTSDBString defaultConfig fmt42 (fun _ => RangeOrder.stored)
        (some (testPoint "cpu.idle" [⟨"data center", "us east 1"⟩])) "web").1.data.getLast?
      = some '\n' ∧
    (MetricPointToOpenTSDBString defaultConfig fmt42 (fun _ => RangeOrder.stored)
        (some (testPoint "cpu.idle" [⟨"data center", "us east 1"⟩])) "web").1.data.count '\n'
      = 1 :=
  ⟨(line_terminator defaultConfig fmt42 (fun _ => RangeOrder.stored)
      (testPoint "cpu.idle" [⟨"data center", "us east 1"⟩]) "web").1,
    (line_terminator defaultConfig fmt42 (fun _ => RangeOrder.stored)
      (testPoint "cpu.idle" [⟨"data center", "us east 1"⟩]) "web").2
      (by decide) (by decide) (by decide) (by decide) (by decide) (by decide) (by decide)⟩

/-- C19, refuted as stated: a line with one tag has four spaces, not
`3 + (1 - 1)`. -/
theorem four_spaces_with_one_tag :
    MetricPointToOpenTSDBString defaultConfig fmt42 (fun _ => RangeOrder.stored)
        (some (testPoint "cpu.idle" [])) "web" =
      ("put cpu.idle 1337 42 host=web\n", some (testPoint "cpu.idle" [⟨"host", "web"⟩])) ∧
    ("put cpu.idle 1337 42 host=web\n" : String).data.count ' ' = 4 ∧
    4 ≠ 3 + ([(⟨"host", "web"⟩ : MetricTag)].length - 1) := by
  decide

/-- C19, amended: when `Prefix`, the configured tag keys and values,
`SpaceReplacement`, the point's name and the rendering of its value hold no
space, the line has exactly `4 + (k - 1)` spaces, `k ≥ 1` being the number of
serialized tags, and the line without its terminator splits on spaces into
`put`, the metric name, the timestamp, the value and the `k` tokens
`name=value`. -/
theorem line_tokens (cfg : HandlerConfig) (fmtV : Float64 → String)
    (ρ : Nat → RangeOrder) (p : MetricPoint) (e : String)
    (hrepl : Contains cfg.SpaceReplacement ' ' = false)
    (hpre : Contains cfg.Prefix ' ' = false)
    (htags : ∀ kv ∈ cfg.Tags.entries, Contains kv.1 ' ' = false ∧ Contains kv.2 ' ' = false)
    (hname : Contains p.Name ' ' = false)
    (hval : Contains (fmtV p.Value) ' ' = false) :
    ∃ (name : String) (tags : List MetricTag),
      MetricPointToOpenTSDBString cfg fmtV ρ (some p) e =
        ("put " ++ name ++ " " ++ fmtInt64 p.Timestamp ++ " " ++ fmtV p.Value
          ++ " " ++ MetricTagsToKVString tags ++ "\n", some { p with Tags := tags }) ∧
      1 ≤ tags.length ∧
      ("put " ++ name ++ " " ++ fmtInt64 p.Timestamp ++ " " ++ fmtV p.Value
          ++ " " ++ MetricTagsToKVString tags ++ "\n").data.count ' ' = 4 + (tags.length - 1) ∧
      ("put " ++ name ++ " " ++ fmtInt64 p.Timestamp ++ " " ++ fmtV p.Value
          ++ " " ++ MetricTagsToKVString tags).data.splitOn ' ' =
        "put".data :: name.data :: (fmtInt64 p.Timestamp).data :: (fmtV p.Value).data
          :: tags.map fun t => (t.Name ++ "=" ++ t.Value).data := by
  have hne := serializedTags_ne_nil cfg ρ p e
  have hse := Contains_specSanitize cfg e hrepl
  have hn : Contains (specName cfg p e) ' ' = false :=
    Contains_specName cfg p e ' ' (by decide) hpre hse hname
  have hts : Contains (fmtInt64 p.Timestamp) ' ' = false :=
    Contains_fmtInt64 _ _ (by decide) (by decide)
  have htg := serializedTags_Contains cfg ρ p e ' ' (by decide) hse
    (specSanitizeTags_no_space cfg p.Tags hrepl) htags
  have htok : ∀ l ∈ ("put".data :: (specName cfg p e).data :: (fmtInt64 p.Timestamp).data
      :: (fmtV p.Value).data
      :: (serializedTags cfg ρ p e).map fun t => (t.Name ++ "=" ++ t.Value).data),
      ' ' ∉ l := by
    intro l hl
    simp only [List.mem_cons, List.mem_map] at hl
    rcases hl with rfl | rfl | rfl | rfl | ⟨t, ht, rfl⟩
    · decide
    · exact Contains_eq_false.1 hn
    · exact Contains_eq_false.1 hts
    · exact Contains_eq_false.1 hval
    · apply Contains_eq_false.1
      rw [Contains_append, Contains_append, (htg t ht).1, (htg t ht).2]
      decide
  refine ⟨specName cfg p e, serializedTags cfg ρ p e, ?_, ?_, ?_, ?_⟩
  · rw [MetricPointToOpenTSDBString_some, composedName_eq]
  · exact List.length_pos.2 hne
  · rw [String.data_append, List.count_append, line_body_data _ _ _ _ hne,
      count_intercalate ' ' _ htok (List.cons_ne_nil _ _)]
    simp only [List.length_cons, List.length_map]
    have h1 : List.count ' ' ("\n" : String).data = 0 := by decide
    rw [h1]
    have := List.length_pos.2 hne
    omega
  · rw [line_body_data _ _ _ _ hne]
    exact List.splitOn_intercalate _ ' ' htok (List.cons_ne_nil _ _)

/-- Witness of C19 amended: the defaults, a configured tag and a point tag. -/
theorem line_tokens_witness :
    Contains dcTaggedConfig.SpaceReplacement ' ' = false ∧
    Contains dcTaggedConfig.Prefix ' ' = false ∧
    (∀ kv ∈ dcTaggedConfig.Tags.entries,
      Contains kv.1 ' ' = false ∧ Contains kv.2 ' ' = false) ∧
    Contains (testPoint "cpu.idle" [⟨"rack", "r 12"⟩]).Name ' ' = false ∧
    Contains (fmt42 (testPoint "cpu.idle" [⟨"rack", "r 12"⟩]).Value) ' ' = false ∧
    ∃ (name : String) (tags : List MetricTag),
      MetricPointToOpenTSDBString dcTaggedConfig fmt42 (fun _ => RangeOrder.stored)
          (some (testPoint "cpu.idle" [⟨"rack", "r 12"⟩])) "web" =
        ("put " ++ name ++ " " ++ fmtInt64 (testPoint "cpu.idle" [⟨"rack", "r 12"⟩]).Timestamp
          ++ " " ++ fmt42 (testPoint "cpu.idle" [⟨"rack", "r 12"⟩]).Value
          ++ " " ++ MetricTagsToKVString tags ++ "\n",
          some { testPoint "cpu.idle" [⟨"rack", "r 12"⟩] with Tags := tags }) ∧
      1 ≤ tags.length ∧
      ("put " ++ name ++ " " ++ fmtInt64 (testPoint "cpu.idle" [⟨"rack", "r 12"⟩]).Timestamp
          ++ " " ++ fmt42 (testPoint "cpu.idle" [⟨"rack", "r 12"⟩]).Value
          ++ " " ++ MetricTagsToKVString tags ++ "\n").data.count ' '
        = 4 + (tags.length - 1) ∧
      ("put " ++ name ++ " " ++ fmtInt64 (testPoint "cpu.idle" [⟨"rack", "r 12"⟩]).Timestamp
          ++ " " ++ fmt42 (testPoint "cpu.idle" [⟨"rack", "r 12"⟩]).Value
          ++ " " ++ MetricTagsToKVString tags).data.splitOn ' ' =
        "put".data :: name.data
          :: (fmtInt64 (testPoint "cpu.idle" [⟨"rack", "r 12"⟩]).Timestamp).data
          :: (fmt42 (testPoint "cpu.idle" [⟨"rack", "r 12"⟩]).Value).data
          :: tags.map fun t => (t.Name ++ "=" ++ t.Value).data :=
  ⟨by decide, by decide, by decide, by decide, by decide,
    line_tokens dcTaggedConfig fmt42 (fun _ => RangeOrder.stored)
      (testPoint "cpu.idle" [⟨"rack", "r 12"⟩]) "web"
      (by decide) (by decide) (by decide) (by decide) (by decide)⟩

/-- C20, refuted as stated: with a configured tag whose key holds a space, the
second call on the rewritten point serializes two tags where the first call
serialized one. -/
theorem second_call_differs :
    Contains spacedTagConfig.SpaceReplacement ' ' = false ∧
    MetricPointToOpenTSDBString spacedTagConfig fmt42 (fun _ => RangeOrder.stored)
        (some (testPoint "cpu.idle" [])) "web" =
      ("put cpu.idle 1337 42 data center=dc1\n",
        some (testPoint "cpu.idle" [⟨"data center", "dc1"⟩])) ∧
    MetricPointToOpenTSDBString spacedTagConfig fmt42 (fun _ => RangeOrder.stored)
        (some (testPoint "cpu.idle" [⟨"data center", "dc1"⟩])) "web" =
      ("put cpu.idle 1337 42 data-center=dc1 data center=dc1\n",
        some (testPoint "cpu.idle" [⟨"data-center", "dc1"⟩, ⟨"data center", "dc1"⟩])) := by
  decide

/-- C20, amended: when `SpaceReplacement` and the configured tag keys and values
hold no space, a second call on the point as the first call left it, with the
same entity name and configuration, serializes a reordering of the tag list of
the first call into a line that is otherwise the same. -/
theorem format_twice (cfg : HandlerConfig) (fmtV : Float64 → String)
    (ρ ρ2 : Nat → RangeOrder) (p : MetricPoint) (e : String)
    (hrepl : Contains cfg.SpaceReplacement ' ' = false)
    (htags : ∀ kv ∈ cfg.Tags.entries, Contains kv.1 ' ' = false ∧ Contains kv.2 ' ' = false) :
    ∃ tags1 tags2 : List MetricTag,
      MetricPointToOpenTSDBString cfg fmtV ρ (some p) e =
        ("put " ++ specName cfg p e ++ " " ++ fmtInt64 p.Timestamp ++ " " ++ fmtV p.Value
          ++ " " ++ MetricTagsToKVString tags1 ++ "\n", some { p with Tags := tags1 }) ∧
      MetricPointToOpenTSDBString cfg fmtV ρ2 (some { p with Tags := tags1 }) e =
        ("put " ++ specName cfg p e ++ " " ++ fmtInt64 p.Timestamp ++ " " ++ fmtV p.Value
          ++ " " ++ MetricTagsToKVString tags2 ++ "\n", some { p with Tags := tags2 }) ∧
      tags2.Perm tags1 := by
  refine ⟨serializedTags cfg ρ p e,
    serializedTags cfg ρ2 { p with Tags := serializedTags cfg ρ p e } e, ?_, ?_, ?_⟩
  · rw [MetricPointToOpenTSDBString_some, composedName_eq]
  · rw [MetricPointToOpenTSDBString_some, composedName_eq]
    rfl
  · rw [List.perm_ext_iff_of_nodup (nodup_serializedTags cfg ρ2 _ e).of_map
      (nodup_serializedTags cfg ρ p e).of_map]
    intro t
    obtain ⟨n, v⟩ := t
    rw [mem_serializedTags, mem_serializedTags, specFinalTag_again cfg ρ p e n hrepl htags]

/-- Witness of C20 amended: a configured tag, a point tag with spaces. -/
theorem format_twice_witness :
    Contains dcTaggedConfig.SpaceReplacement ' ' = false ∧
    (∀ kv ∈ dcTaggedConfig.Tags.entries,
      Contains kv.1 ' ' = false ∧ Contains kv.2 ' ' = false) ∧
    ∃ tags1 tags2 : List MetricTag,
      MetricPointToOpenTSDBString dcTaggedConfig fmt42 (fun _ => RangeOrder.stored)
          (some (testPoint "cpu.idle" [⟨"rack", "r 12"⟩])) "web" =
        ("put " ++ specName dcTaggedConfig (testPoint "cpu.idle" [⟨"rack", "r 12"⟩]) "web"
          ++ " " ++ fmtInt64 (testPoint "cpu.idle" [⟨"rack", "r 12"⟩]).Timestamp
          ++ " " ++ fmt42 (testPoint "cpu.idle" [⟨"rack", "r 12"⟩]).Value
          ++ " " ++ MetricTagsToKVString tags1 ++ "\n",
          some { testPoint "cpu.idle" [⟨"rack", "r 12"⟩] with Tags := tags1 }) ∧
      MetricPointToOpenTSDBString dcTaggedConfig fmt42 (fun _ => RangeOrder.reversed)
          (some { testPoint "cpu.idle" [⟨"rack", "r 12"⟩] with Tags := tags1 }) "web" =
        ("put " ++ specName dcTaggedConfig (testPoint "cpu.idle" [⟨"rack", "r 12"⟩]) "web"
          ++ " " ++ fmtInt64 (testPoint "cpu.idle" [⟨"rack", "r 12"⟩]).Timestamp
          ++ " " ++ fmt42 (testPoint "cpu.idle" [⟨"rack", "r 12"⟩]).Value
          ++ " " ++ MetricTagsToKVString tags2 ++ "\n",
          some { testPoint "cpu.idle" [⟨"rack", "r 12"⟩] with Tags := tags2 }) ∧
      tags2.Perm tags1 :=
  ⟨by decide, by decide,
    format_twice dcTaggedConfig fmt42 (fun _ => RangeOrder.stored)
      (fun _ => RangeOrder.reversed) (testPoint "cpu.idle" [⟨"rack", "r 12"⟩]) "web"
      (by decide) (by decide)⟩

/-- C4, refuted as stated: with `TagHost` true, a point tag named `host=x`, or
a `SpaceReplacement` that holds a space together with a tag value holding
`host=`, gives a tag section with two tokens that start with `host=`. -/
theorem host_token_twice :
    (MetricPointToOpenTSDBString defaultConfig fmt42 (fun _ => RangeOrder.stored)
        (some (testPoint "cpu.idle" [⟨"host=x", "y"⟩])) "web").1 =
      "put cpu.idle 1337 42 host=web host=x=y\n" ∧
    sectionTags "host=web host=x=y" = [⟨"host", "web"⟩, ⟨"host", "x=y"⟩] ∧
    (MetricPointToOpenTSDBString { defaultConfig with SpaceReplacement := " " } fmt42
        (fun _ => RangeOrder.stored)
        (some (testPoint "cpu.idle" [⟨"dc", "x host=evil"⟩])) "web").1 =
      "put cpu.idle 1337 42 host=web dc=x host=evil\n" ∧
    sectionTags "host=web dc=x host=evil" =
      [⟨"host", "web"⟩, ⟨"dc", "x"⟩, ⟨"host", "evil"⟩] := by
  decide

/-- C4, amended: with `TagHost` true, when `SpaceReplacement` and the configured
tag keys and values hold no space and no configured key and no sanitized name
of a point tag holds `=`, the tag section of the line, read back token by
token, has exactly one tag named `host`, and its value is the sanitized entity
name. -/
theorem host_tag_unique (cfg : HandlerConfig) (fmtV : Float64 → String)
    (ρ : Nat → RangeOrder) (p : MetricPoint) (e : String) (h : cfg.TagHost = true)
    (hrepl : Contains cfg.SpaceReplacement ' ' = false)
    (hcfg : ∀ kv ∈ cfg.Tags.entries,
      Contains kv.1 ' ' = false ∧ Contains kv.2 ' ' = false ∧ Contains kv.1 '=' = false)
    (hpt : ∀ t ∈ p.Tags, Contains (ReplaceAll t.Name ' ' cfg.SpaceReplacement) '=' = false) :
    ∃ k : String,
      (MetricPointToOpenTSDBString cfg fmtV ρ (some p) e).1 =
        "put " ++ specName cfg p e ++ " " ++ fmtInt64 p.Timestamp ++ " " ++ fmtV p.Value
          ++ " " ++ k ++ "\n" ∧
      (sectionTags k).filter (fun t => decide (t.Name = "host")) =
        [⟨"host", ReplaceAll e ' ' cfg.SpaceReplacement⟩] := by
  refine ⟨MetricTagsToKVString (serializedTags cfg ρ p e),
    MetricPointToOpenTSDBString_fst cfg fmtV ρ p e, ?_⟩
  rw [sectionTags_serialized cfg ρ p e hrepl hcfg hpt]
  apply filter_name_eq_singleton (nodup_serializedTags cfg ρ p e)
  rw [mem_serializedTags]
  apply specFinalTag_host
  unfold specHostMerged
  simp [h]

/-- Witness of C4 amended: `host` is configured and also carried by the point. -/
theorem host_tag_unique_witness :
    hostTaggedConfig.TagHost = true ∧
    Contains hostTaggedConfig.SpaceReplacement ' ' = false ∧
    (∀ kv ∈ hostTaggedConfig.Tags.entries,
      Contains kv.1 ' ' = false ∧ Contains kv.2 ' ' = false ∧ Contains kv.1 '=' = false) ∧
    (∀ t ∈ (testPoint "cpu.idle" [⟨"host", "reported"⟩, ⟨"dc", "us"⟩]).Tags,
      Contains (ReplaceAll t.Name ' ' hostTaggedConfig.SpaceReplacement) '=' = false) ∧
    (MetricPointToOpenTSDBString hostTaggedConfig fmt42 (fun _ => RangeOrder.reversed)
        (some (testPoint "cpu.idle" [⟨"host", "reported"⟩, ⟨"dc", "us"⟩])) "web server").1 =
      "put cpu.idle 1337 42 dc=us host=web-server\n" ∧
    ∃ k : String,
      (MetricPointToOpenTSDBString hostTaggedConfig fmt42 (fun _ => RangeOrder.reversed)
          (some (testPoint "cpu.idle" [⟨"host", "reported"⟩, ⟨"dc", "us"⟩])) "web server").1 =
        "put " ++ specName hostTaggedConfig
            (testPoint "cpu.idle" [⟨"host", "reported"⟩, ⟨"dc", "us"⟩]) "web server" ++ " "
          ++ fmtInt64 (testPoint "cpu.idle" [⟨"host", "reported"⟩, ⟨"dc", "us"⟩]).Timestamp ++ " "
          ++ fmt42 (testPoint "cpu.idle" [⟨"host", "reported"⟩, ⟨"dc", "us"⟩]).Value
          ++ " " ++ k ++ "\n" ∧
      (sectionTags k).filter (fun t => decide (t.Name = "host")) =
        [⟨"host", ReplaceAll "web server" ' ' hostTaggedConfig.SpaceReplacement⟩] :=
  ⟨rfl, by decide, by decide, by decide, by decide,
    host_tag_unique hostTaggedConfig fmt42 (fun _ => RangeOrder.reversed)
      (testPoint "cpu.idle" [⟨"host", "reported"⟩, ⟨"dc", "us"⟩]) "web server" rfl
      (by decide) (by decide) (by decide)⟩

/-- C17, refuted as stated: the tags `a = b=c` and `a=b = c` have different
names and serialize to the same token, so the tag section names `a` twice. -/
theorem name_token_twice :
    (MetricPointToOpenTSDBString { defaultConfig with TagHost := false } fmt42
        (fun _ => RangeOrder.stored)
        (some (testPoint "cpu.idle" [⟨"a", "b=c"⟩, ⟨"a=b", "c"⟩])) "web").1 =
      "put cpu.idle 1337 42 a=b=c a=b=c\n" ∧
    (sectionTags "a=b=c a=b=c").map (fun t => t.Name) = ["a", "a"] := by
  decide

/-- C17, amended: the list returned by `MergeMetricTags` has pairwise distinct
names; and when `SpaceReplacement` and the configured tag keys and values hold
no space and no configured key and no sanitized name of a point tag holds `=`,
no name occurs twice among the tags read back from the tag section of the
line, and these tags are exactly the entries of the final tag set. -/
theorem merged_names_distinct (ρ : RangeOrder) (x y : List MetricTag) (cfg : HandlerConfig)
    (fmtV : Float64 → String) (ρs : Nat → RangeOrder) (p : MetricPoint) (e : String) :
    ((MergeMetricTags ρ x y).map fun t => t.Name).Nodup ∧
    (Contains cfg.SpaceReplacement ' ' = false →
      (∀ kv ∈ cfg.Tags.entries,
        Contains kv.1 ' ' = false ∧ Contains kv.2 ' ' = false ∧ Contains kv.1 '=' = false) →
      (∀ t ∈ p.Tags, Contains (ReplaceAll t.Name ' ' cfg.SpaceReplacement) '=' = false) →
      ∃ k : String,
        (MetricPointToOpenTSDBString cfg fmtV ρs (some p) e).1 =
          "put " ++ specName cfg p e ++ " " ++ fmtInt64 p.Timestamp ++ " " ++ fmtV p.Value
            ++ " " ++ k ++ "\n" ∧
        ((sectionTags k).map fun t => t.Name).Nodup ∧
        ∀ n v, (⟨n, v⟩ : MetricTag) ∈ sectionTags k ↔ specFinalTag cfg p e n = some v) := by
  refine ⟨nodup_MergeMetricTags ρ x y, fun hrepl hcfg hpt =>
    ⟨MetricTagsToKVString (serializedTags cfg ρs p e),
      MetricPointToOpenTSDBString_fst cfg fmtV ρs p e, ?_⟩⟩
  rw [sectionTags_serialized cfg ρs p e hrepl hcfg hpt]
  exact ⟨nodup_serializedTags cfg ρs p e, mem_serializedTags cfg ρs p e⟩

/-- Witness of C17 amended: a point with a repeated name and with two names
that sanitization makes equal. -/
theorem merged_names_distinct_witness :
    ((MergeMetricTags RangeOrder.stored [⟨"dc", "us"⟩, ⟨"dc", "eu"⟩]
      [⟨"rack", "1"⟩, ⟨"dc", "ap"⟩, ⟨"rack", "2"⟩]).map fun t => t.Name).Nodup ∧
    (MetricPointToOpenTSDBString dcTaggedConfig fmt42 (fun _ => RangeOrder.stored)
        (some (testPoint "cpu.idle" [⟨"d c", "1"⟩, ⟨"d-c", "2"⟩, ⟨"d c", "3"⟩])) "web").1 =
      "put cpu.idle 1337 42 d-c=3 dc=us-east-1\n" ∧
    ∃ k : String,
      (MetricPointToOpenTSDBString dcTaggedConfig fmt42 (fun _ => RangeOrder.stored)
          (some (testPoint "cpu.idle" [⟨"d c", "1"⟩, ⟨"d-c", "2"⟩, ⟨"d c", "3"⟩])) "web").1 =
        "put " ++ specName dcTaggedConfig
            (testPoint "cpu.idle" [⟨"d c", "1"⟩, ⟨"d-c", "2"⟩, ⟨"d c", "3"⟩]) "web" ++ " "
          ++ fmtInt64 (testPoint "cpu.idle" [⟨"d c", "1"⟩, ⟨"d-c", "2"⟩, ⟨"d c", "3"⟩]).Timestamp
          ++ " " ++ fmt42 (testPoint "cpu.idle" [⟨"d c", "1"⟩, ⟨"d-c", "2"⟩, ⟨"d c", "3"⟩]).Value
          ++ " " ++ k ++ "\n" ∧
      ((sectionTags k).map fun t => t.Name).Nodup ∧
      ∀ n v, (⟨n, v⟩ : MetricTag) ∈ sectionTags k ↔
        specFinalTag dcTaggedConfig
          (testPoint "cpu.idle" [⟨"d c", "1"⟩, ⟨"d-c", "2"⟩, ⟨"d c", "3"⟩]) "web" n = some v :=
  ⟨(merged_names_distinct RangeOrder.stored [⟨"dc", "us"⟩, ⟨"dc", "eu"⟩]
      [⟨"rack", "1"⟩, ⟨"dc", "ap"⟩, ⟨"rack", "2"⟩] dcTaggedConfig fmt42
      (fun _ => RangeOrder.stored)
      (testPoint "cpu.idle" [⟨"d c", "1"⟩, ⟨"d-c", "2"⟩, ⟨"d c", "3"⟩]) "web").1,
    by decide,
    (merged_names_distinct RangeOrder.stored [⟨"dc", "us"⟩, ⟨"dc", "eu"⟩]
      [⟨"rack", "1"⟩, ⟨"dc", "ap"⟩, ⟨"rack", "2"⟩] dcTaggedConfig fmt42
      (fun _ => RangeOrder.stored)
      (testPoint "cpu.idle" [⟨"d c", "1"⟩, ⟨"d-c", "2"⟩, ⟨"d c", "3"⟩]) "web").2
      (by decide) (by decide) (by decide)⟩

/-- C2, refuted as stated: with `TagHost` set, a tag named `host` that is both
configured and carried by the point appears with the entity name, not with the
point's value; and with a `SpaceReplacement` that holds a space, a point value
can put the configured pair into the tag section. -/
theorem tag_precedence_host_overridden :
    AList.lookup "host" hostTaggedConfig.Tags = some "configured" ∧
    (⟨"host", "reported"⟩ : MetricTag) ∈ (testPoint "cpu.idle" [⟨"host", "reported"⟩]).Tags ∧
    MetricPointToOpenTSDBString hostTaggedConfig fmt42 (fun _ => RangeOrder.stored)
        (some (testPoint "cpu.idle" [⟨"host", "reported"⟩])) "web" =
      ("put cpu.idle 1337 42 host=web\n", some (testPoint "cpu.idle" [⟨"host", "web"⟩])) ∧
    sectionTags "host=web" = [⟨"host", "web"⟩] ∧
    (MetricPointToOpenTSDBString { dcTaggedConfig with SpaceReplacement := " " } fmt42
        (fun _ => RangeOrder.stored)
        (some (testPoint "cpu.idle" [⟨"dc", "eu dc=us-east-1"⟩])) "web").1 =
      "put cpu.idle 1337 42 dc=eu dc=us-east-1\n" ∧
    sectionTags "dc=eu dc=us-east-1" = [⟨"dc", "eu"⟩, ⟨"dc", "us-east-1"⟩] := by
  decide

/-- C2, amended: let `n` be configured and be the sanitized name of some tag of
the point, `pv` the sanitized value of the last such tag.  When
`SpaceReplacement` and the configured tag keys and values hold no space and no
configured key and no sanitized name of a point tag holds `=`, the tag section
of the line, read back token by token, pairs `n` with exactly one value: the
sanitized entity name if `TagHost` is true and `n` is `host`, and `pv`
otherwise. -/
theorem tag_precedence_point_wins (cfg : HandlerConfig) (fmtV : Float64 → String)
    (ρ : Nat → RangeOrder) (p : MetricPoint) (e n cv pv : String)
    (hn : AList.lookup n cfg.Tags = some cv)
    (hpoint : lastValue (specSanitizeTags cfg p.Tags) n = some pv)
    (hrepl : Contains cfg.SpaceReplacement ' ' = false)
    (hcfg : ∀ kv ∈ cfg.Tags.entries,
      Contains kv.1 ' ' = false ∧ Contains kv.2 ' ' = false ∧ Contains kv.1 '=' = false)
    (hpt : ∀ t ∈ p.Tags, Contains (ReplaceAll t.Name ' ' cfg.SpaceReplacement) '=' = false) :
    ∃ k : String,
      (MetricPointToOpenTSDBString cfg fmtV ρ (some p) e).1 =
        "put " ++ specName cfg p e ++ " " ++ fmtInt64 p.Timestamp ++ " " ++ fmtV p.Value
          ++ " " ++ k ++ "\n" ∧
      ∀ v, (⟨n, v⟩ : MetricTag) ∈ sectionTags k ↔
        v = if cfg.TagHost = true ∧ n = "host" then ReplaceAll e ' ' cfg.SpaceReplacement
          else pv := by
  refine ⟨MetricTagsToKVString (serializedTags cfg ρ p e),
    MetricPointToOpenTSDBString_fst cfg fmtV ρ p e, ?_⟩
  intro v
  rw [sectionTags_serialized cfg ρ p e hrepl hcfg hpt, mem_serializedTags]
  have hne : cfg.Tags.entries ≠ [] := by
    intro h
    rw [(entries_eq_nil_iff _).1 h n] at hn
    exact absurd hn (by simp)
  have hm : specHostMerged cfg p = cfg.TagHost := by
    unfold specHostMerged
    have : cfg.Tags.entries.isEmpty = false := by
      cases hce : cfg.Tags.entries with
      | nil => exact absurd hce hne
      | cons _ _ => rfl
    rw [this]
    simp
  unfold specFinalTag
  rw [hm]
  by_cases hc : cfg.TagHost = true ∧ n = "host"
  · rw [if_pos hc, if_pos hc]
    simp only [Option.some.injEq]
    exact eq_comm
  · rw [if_neg hc, if_neg hc]
    unfold specMergedTag
    rw [hpoint]
    simp only [Option.some.injEq]
    exact eq_comm

/-- Witness of C2 amended: the configured `dc` is overridden by the point. -/
theorem tag_precedence_point_wins_witness :
    AList.lookup "dc" dcTaggedConfig.Tags = some "us-east-1" ∧
    lastValue (specSanitizeTags dcTaggedConfig (testPoint "cpu.idle" [⟨"dc", "eu west"⟩]).Tags)
      "dc" = some "eu-west" ∧
    Contains dcTaggedConfig.SpaceReplacement ' ' = false ∧
    (∀ kv ∈ dcTaggedConfig.Tags.entries,
      Contains kv.1 ' ' = false ∧ Contains kv.2 ' ' = false ∧ Contains kv.1 '=' = false) ∧
    (∀ t ∈ (testPoint "cpu.idle" [⟨"dc", "eu west"⟩]).Tags,
      Contains (ReplaceAll t.Name ' ' dcTaggedConfig.SpaceReplacement) '=' = false) ∧
    (MetricPointToOpenTSDBString dcTaggedConfig fmt42 (fun _ => RangeOrder.stored)
        (some (testPoint "cpu.idle" [⟨"dc", "eu west"⟩])) "web").1 =
      "put cpu.idle 1337 42 dc=eu-west\n" ∧
    ∃ k : String,
      (MetricPointToOpenTSDBString dcTaggedConfig fmt42 (fun _ => RangeOrder.stored)
          (some (testPoint "cpu.idle" [⟨"dc", "eu west"⟩])) "web").1 =
        "put " ++ specName dcTaggedConfig (testPoint "cpu.idle" [⟨"dc", "eu west"⟩]) "web" ++ " "
          ++ fmtInt64 (testPoint "cpu.idle" [⟨"dc", "eu west"⟩]).Timestamp ++ " "
          ++ fmt42 (testPoint "cpu.idle" [⟨"dc", "eu west"⟩]).Value
          ++ " " ++ k ++ "\n" ∧
      ∀ v, (⟨"dc", v⟩ : MetricTag) ∈ sectionTags k ↔
        v = if dcTaggedConfig.TagHost = true ∧ "dc" = "host" then
            ReplaceAll "web" ' ' dcTaggedConfig.SpaceReplacement
          else "eu-west" :=
  ⟨by decide, by decide, by decide, by decide, by decide, by decide,
    tag_precedence_point_wins dcTaggedConfig fmt42 (fun _ => RangeOrder.stored)
      (testPoint "cpu.idle" [⟨"dc", "eu west"⟩]) "web" "dc" "us-east-1" "eu-west"
      (by decide) (by decide) (by decide) (by decide) (by decide)⟩

/-- C3, amended: for a point without tags, when `TagHost` is true or no tag is
configured, the tag section of the line is a join by single spaces of tokens
one of which is `host=` followed by the sanitized entity name. -/
theorem host_fallback (cfg : HandlerConfig) (fmtV : Float64 → String)
    (ρ : Nat → RangeOrder) (p : MetricPoint) (e : String)
    (hp : p.Tags = []) (hc : cfg.TagHost = true ∨ cfg.Tags.entries = []) :
    ∃ before after : List String,
      (MetricPointToOpenTSDBString cfg fmtV ρ (some p) e).1 =
        "put " ++ specName cfg p e ++ " " ++ fmtInt64 p.Timestamp ++ " " ++ fmtV p.Value
          ++ " " ++ String.intercalate " "
            (before ++ ["host=" ++ ReplaceAll e ' ' cfg.SpaceReplacement] ++ after) ++ "\n" := by
  have hm : specHostMerged cfg p = true := by
    unfold specHostMerged
    rcases hc with h | h
    · simp [h]
    · simp [h, hp]
  have hmem : (⟨"host", ReplaceAll e ' ' cfg.SpaceReplacement⟩ : MetricTag) ∈
      serializedTags cfg ρ p e := by
    rw [mem_serializedTags]
    exact specFinalTag_host cfg p e hm
  obtain ⟨l1, l2, hl⟩ := List.append_of_mem hmem
  refine ⟨l1.map fun t => t.Name ++ "=" ++ t.Value, l2.map fun t => t.Name ++ "=" ++ t.Value, ?_⟩
  rw [MetricPointToOpenTSDBString_fst, MetricTagsToKVString_eq_intercalate, hl]
  simp only [List.map_append, List.map_cons, render_host, List.append_assoc,
    List.singleton_append]

/-- Witness of C3 amended: no configured tag, `TagHost` off. -/
theorem host_fallback_witness :
    (testPoint "cpu.idle" []).Tags = [] ∧
    ({ defaultConfig with TagHost := false }.TagHost = true ∨
      { defaultConfig with TagHost := false }.Tags.entries = []) ∧
    (MetricPointToOpenTSDBString { defaultConfig with TagHost := false } fmt42
        (fun _ => RangeOrder.stored) (some (testPoint "cpu.idle" [])) "web server").1 =
      "put cpu.idle 1337 42 host=web-server\n" ∧
    ∃ before after : List String,
      (MetricPointToOpenTSDBString { defaultConfig with TagHost := false } fmt42
          (fun _ => RangeOrder.stored) (some (testPoint "cpu.idle" [])) "web server").1 =
        "put " ++ specName { defaultConfig with TagHost := false } (testPoint "cpu.idle" [])
            "web server" ++ " "
          ++ fmtInt64 (testPoint "cpu.idle" []).Timestamp ++ " "
          ++ fmt42 (testPoint "cpu.idle" []).Value
          ++ " " ++ String.intercalate " "
            (before ++ ["host=" ++ ReplaceAll "web server" ' '
              { defaultConfig with TagHost := false }.SpaceReplacement] ++ after) ++ "\n" :=
  ⟨rfl, Or.inr rfl, by decide,
    host_fallback { defaultConfig with TagHost := false } fmt42 (fun _ => RangeOrder.stored)
      (testPoint "cpu.idle" []) "web server" rfl (Or.inr rfl)⟩

/-- C7: the tag section of the line is a join by single spaces of at least one
token, every token is a `name=value` string, and read back at the spaces the
section has a token that holds `=`. -/
theorem serialized_tags_nonempty (cfg : HandlerConfig) (fmtV : Float64 → String)
    (ρ : Nat → RangeOrder) (p : MetricPoint) (e : String) :
    ∃ toks : List String,
      (MetricPointToOpenTSDBString cfg fmtV ρ (some p) e).1 =
        "put " ++ specName cfg p e ++ " " ++ fmtInt64 p.Timestamp ++ " " ++ fmtV p.Value
          ++ " " ++ String.intercalate " " toks ++ "\n" ∧
      toks ≠ [] ∧ (∀ tok ∈ toks, ∃ n v : String, tok = n ++ "=" ++ v) ∧
      ∃ tok ∈ sectionTokens (String.intercalate " " toks), Contains tok '=' = true := by
  have hne := serializedTags_ne_nil cfg ρ p e
  refine ⟨(serializedTags cfg ρ p e).map fun t => t.Name ++ "=" ++ t.Value, ?_, ?_, ?_, ?_⟩
  · rw [MetricPointToOpenTSDBString_fst, MetricTagsToKVString_eq_intercalate]
  · simpa using hne
  · intro tok htok
    obtain ⟨t, _, rfl⟩ := List.mem_map.1 htok
    exact ⟨t.Name, t.Value, rfl⟩
  · cases hs : serializedTags cfg ρ p e with
    | nil => exact absurd hs hne
    | cons t rest =>
      have hin : '=' ∈ (String.intercalate " "
          ((t :: rest).map fun t => t.Name ++ "=" ++ t.Value)).data := by
        rw [intercalate_space_data]
        apply mem_intercalate_of_mem _ _ (t.Name ++ "=" ++ t.Value).data
        · simp
        · simp [String.data_append]
      obtain ⟨piece, hp1, hp2⟩ := exists_piece_of_mem _ ' ' '=' (by decide) hin
      refine ⟨String.mk piece, ?_, ?_⟩
      · unfold sectionTokens
        exact List.mem_map.2 ⟨piece, hp1, rfl⟩
      · unfold Contains
        simpa using hp2

/-- C1, refuted as stated: with a `SpaceReplacement` that holds a space the
tokens of the tag section are not the entries of the final tag set. -/
theorem tokens_are_not_entries :
    MetricPointToOpenTSDBString { defaultConfig with TagHost := false, SpaceReplacement := " " }
        fmt42 (fun _ => RangeOrder.stored)
        (some (testPoint "cpu.idle" [⟨"data center", "us east 1"⟩])) "web" =
      ("put cpu.idle 1337 42 data center=us east 1\n",
        some (testPoint "cpu.idle" [⟨"data center", "us east 1"⟩])) ∧
    specFinalTag { defaultConfig with TagHost := false, SpaceReplacement := " " }
        (testPoint "cpu.idle" [⟨"data center", "us east 1"⟩]) "web" "data center" =
      some "us east 1" ∧
    sectionTokens "data center=us east 1" = ["data", "center=us", "east", "1"] := by
  decide

/-- C1, amended: the formatter returns `put N T V K` and a line terminator, where
`N` is the composed name of the specification, `T` the decimal timestamp, `V`
the rendered value and `K` is `MetricTagsToKVString` of the final tag list,
that is its `name=value` strings joined by single spaces; that list has
pairwise distinct names and holds exactly the entries of the specification's
final tag set.  When `SpaceReplacement` and the configured tag keys and values
hold no space, the tokens of `K` are exactly those `name=value` strings. -/
theorem MetricPointToOpenTSDBString_line (cfg : HandlerConfig) (fmtV : Float64 → String)
    (ρ : Nat → RangeOrder) (p : MetricPoint) (e : String) :
    ∃ (tags : List MetricTag) (k : String),
      MetricPointToOpenTSDBString cfg fmtV ρ (some p) e =
        ("put " ++ specName cfg p e ++ " " ++ fmtInt64 p.Timestamp ++ " " ++ fmtV p.Value
          ++ " " ++ k ++ "\n", some { p with Tags := tags }) ∧
      k = MetricTagsToKVString tags ∧
      k = String.intercalate " " (tags.map fun t => t.Name ++ "=" ++ t.Value) ∧
      (tags.map fun t => t.Name).Nodup ∧
      (∀ n v, (⟨n, v⟩ : MetricTag) ∈ tags ↔ specFinalTag cfg p e n = some v) ∧
      (Contains cfg.SpaceReplacement ' ' = false →
        (∀ kv ∈ cfg.Tags.entries, Contains kv.1 ' ' = false ∧ Contains kv.2 ' ' = false) →
        sectionTokens k = tags.map fun t => t.Name ++ "=" ++ t.Value) := by
  refine ⟨serializedTags cfg ρ p e, MetricTagsToKVString (serializedTags cfg ρ p e), ?_, rfl,
    MetricTagsToKVString_eq_intercalate _, nodup_serializedTags cfg ρ p e,
    mem_serializedTags cfg ρ p e, ?_⟩
  · rw [MetricPointToOpenTSDBString_some, composedName_eq]
  · intro hrepl hcfg
    rw [MetricTagsToKVString_eq_intercalate]
    apply sectionTokens_intercalate
    · simpa using serializedTags_ne_nil cfg ρ p e
    · intro tok htok
      obtain ⟨t, ht, rfl⟩ := List.mem_map.1 htok
      have hs := serializedTags_Contains cfg ρ p e ' ' (by decide)
        (Contains_specSanitize cfg e hrepl) (specSanitizeTags_no_space cfg p.Tags hrepl) hcfg t ht
      rw [Contains_append, Contains_append, hs.1, hs.2]
      decide

/-- Witness of C1 amended: a configured tag and a point tag with spaces. -/
theorem MetricPointToOpenTSDBString_line_witness :
    Contains dcTaggedConfig.SpaceReplacement ' ' = false ∧
    (∀ kv ∈ dcTaggedConfig.Tags.entries,
      Contains kv.1 ' ' = false ∧ Contains kv.2 ' ' = false) ∧
    (MetricPointToOpenTSDBString dcTaggedConfig fmt42 (fun _ => RangeOrder.stored)
        (some (testPoint "cpu.idle" [⟨"data center", "us east 1"⟩])) "web").1 =
      "put cpu.idle 1337 42 data-center=us-east-1 dc=us-east-1\n" ∧
    ∃ (tags : List MetricTag) (k : String),
      MetricPointToOpenTSDBString dcTaggedConfig fmt42 (fun _ => RangeOrder.stored)
          (some (testPoint "cpu.idle" [⟨"data center", "us east 1"⟩])) "web" =
        ("put " ++ specName dcTaggedConfig
            (testPoint "cpu.idle" [⟨"data center", "us east 1"⟩]) "web" ++ " "
          ++ fmtInt64 (testPoint "cpu.idle" [⟨"data center", "us east 1"⟩]).Timestamp ++ " "
          ++ fmt42 (testPoint "cpu.idle" [⟨"data center", "us east 1"⟩]).Value
          ++ " " ++ k ++ "\n",
          some { testPoint "cpu.idle" [⟨"data center", "us east 1"⟩] with Tags := tags }) ∧
      sectionTokens k = tags.map fun t => t.Name ++ "=" ++ t.Value := by
  refine ⟨by decide, by decide, by decide, ?_⟩
  obtain ⟨tags, k, h1, _, _, _, _, h6⟩ :=
    MetricPointToOpenTSDBString_line dcTaggedConfig fmt42 (fun _ => RangeOrder.stored)
      (testPoint "cpu.idle" [⟨"data center", "us east 1"⟩]) "web"
  exact ⟨tags, k, h1, h6 (by decide) (by decide)⟩

/-- C5, amended: when `SpaceReplacement`, `Prefix`, the configured tag keys and
values, the point's name and the rendering of its value hold no space, the
metric-name field carries the entity name with every space replaced by
`SpaceReplacement`, every tag of the point appears in the tag section under its
name with every space replaced, paired with the entity name so replaced or
with the value, every space replaced, of a tag of the point of that name; no
space is left in the metric-name field or in a tag name or value, and the line
without its terminator splits at its spaces into `put`, the metric name, the
timestamp, the value and the `name=value` tokens: every space of the line is a
separator. -/
theorem no_space_in_fields (cfg : HandlerConfig) (fmtV : Float64 → String)
    (ρ : Nat → RangeOrder) (p : MetricPoint) (e : String)
    (hrepl : Contains cfg.SpaceReplacement ' ' = false)
    (hpre : Contains cfg.Prefix ' ' = false)
    (htags : ∀ kv ∈ cfg.Tags.entries, Contains kv.1 ' ' = false ∧ Contains kv.2 ' ' = false)
    (hname : Contains p.Name ' ' = false)
    (hval : Contains (fmtV p.Value) ' ' = false) :
    ∃ (name : String) (tags : List MetricTag),
      name =
        (if cfg.Prefix = "" then
          if cfg.PrefixEntityName = true then
            ReplaceAll e ' ' cfg.SpaceReplacement ++ "." ++ p.Name
          else p.Name
        else
          if cfg.PrefixEntityName = true then
            cfg.Prefix ++ "." ++ ReplaceAll e ' ' cfg.SpaceReplacement ++ "." ++ p.Name
          else cfg.Prefix ++ "." ++ p.Name) ∧
      (MetricPointToOpenTSDBString cfg fmtV ρ (some p) e).1 =
        "put " ++ name ++ " " ++ fmtInt64 p.Timestamp ++ " " ++ fmtV p.Value ++ " "
          ++ String.intercalate " " (tags.map fun t => t.Name ++ "=" ++ t.Value) ++ "\n" ∧
      (∀ t ∈ p.Tags, ∃ v, (⟨ReplaceAll t.Name ' ' cfg.SpaceReplacement, v⟩ : MetricTag) ∈ tags ∧
        (v = ReplaceAll e ' ' cfg.SpaceReplacement ∨
          ∃ u ∈ p.Tags, ReplaceAll u.Name ' ' cfg.SpaceReplacement =
              ReplaceAll t.Name ' ' cfg.SpaceReplacement ∧
            v = ReplaceAll u.Value ' ' cfg.SpaceReplacement)) ∧
      Contains name ' ' = false ∧
      (∀ t ∈ tags, Contains t.Name ' ' = false ∧ Contains t.Value ' ' = false) ∧
      ("put " ++ name ++ " " ++ fmtInt64 p.Timestamp ++ " " ++ fmtV p.Value ++ " "
          ++ String.intercalate " " (tags.map fun t => t.Name ++ "=" ++ t.Value)).data.splitOn ' '
        = "put".data :: name.data :: (fmtInt64 p.Timestamp).data :: (fmtV p.Value).data
          :: tags.map fun t => (t.Name ++ "=" ++ t.Value).data := by
  have hne := serializedTags_ne_nil cfg ρ p e
  have hse := Contains_specSanitize cfg e hrepl
  have hn : Contains (specName cfg p e) ' ' = false :=
    Contains_specName cfg p e ' ' (by decide) hpre hse hname
  have hts : Contains (fmtInt64 p.Timestamp) ' ' = false :=
    Contains_fmtInt64 _ _ (by decide) (by decide)
  have htg := serializedTags_Contains cfg ρ p e ' ' (by decide) hse
    (specSanitizeTags_no_space cfg p.Tags hrepl) htags
  refine ⟨specName cfg p e, serializedTags cfg ρ p e, rfl, ?_, ?_, hn, htg, ?_⟩
  · rw [MetricPointToOpenTSDBString_fst, MetricTagsToKVString_eq_intercalate]
  · intro t ht
    have hmem : ReplaceAll t.Name ' ' cfg.SpaceReplacement ∈
        (specSanitizeTags cfg p.Tags).map fun u => u.Name := by
      unfold specSanitizeTags specSanitize
      rw [List.map_map]
      exact List.mem_map.2 ⟨t, ht, rfl⟩
    have hsome := (lastValue_isSome_iff _ _).2 hmem
    obtain ⟨w, hw⟩ := Option.isSome_iff_exists.1 hsome
    by_cases hc : specHostMerged cfg p = true ∧
        ReplaceAll t.Name ' ' cfg.SpaceReplacement = "host"
    · refine ⟨ReplaceAll e ' ' cfg.SpaceReplacement, ?_, Or.inl rfl⟩
      rw [mem_serializedTags]
      unfold specFinalTag
      rw [if_pos hc]
      rfl
    · refine ⟨w, ?_, Or.inr ?_⟩
      · rw [mem_serializedTags]
        unfold specFinalTag
        rw [if_neg hc]
        unfold specMergedTag
        rw [hw]
      · obtain ⟨u, hu, hueq⟩ := mem_specSanitizeTags (lastValue_mem hw)
        simp only [MetricTag.mk.injEq] at hueq
        exact ⟨u, hu, hueq.1.symm, hueq.2⟩
  · rw [← MetricTagsToKVString_eq_intercalate, line_body_data _ _ _ _ hne]
    apply List.splitOn_intercalate _ ' ' _ (List.cons_ne_nil _ _)
    intro l hl
    simp only [List.mem_cons, List.mem_map] at hl
    rcases hl with rfl | rfl | rfl | rfl | ⟨t, ht, rfl⟩
    · decide
    · exact Contains_eq_false.1 hn
    · exact Contains_eq_false.1 hts
    · exact Contains_eq_false.1 hval
    · apply Contains_eq_false.1
      rw [Contains_append, Contains_append, (htg t ht).1, (htg t ht).2]
      decide

/-- Witness of C5 amended: the entity name `web server` and the tag
`data center = us east 1` come out as `web-server` and
`data-center=us-east-1`. -/
theorem no_space_in_fields_witness :
    Contains entityPrefixConfig.SpaceReplacement ' ' = false ∧
    Contains entityPrefixConfig.Prefix ' ' = false ∧
    (∀ kv ∈ entityPrefixConfig.Tags.entries,
      Contains kv.1 ' ' = false ∧ Contains kv.2 ' ' = false) ∧
    Contains spacedTagPoint.Name ' ' = false ∧
    Contains (fmt42 spacedTagPoint.Value) ' ' = false ∧
    (MetricPointToOpenTSDBString entityPrefixConfig fmt42 (fun _ => RangeOrder.stored)
        (some spacedTagPoint) "web server").1 =
      "put web-server.cpu.idle 1337 42 host=web-server data-center=us-east-1\n" ∧
    ∃ (name : String) (tags : List MetricTag),
      name =
        (if entityPrefixConfig.Prefix = "" then
          if entityPrefixConfig.PrefixEntityName = true then
            ReplaceAll "web server" ' ' entityPrefixConfig.SpaceReplacement ++ "."
              ++ spacedTagPoint.Name
          else spacedTagPoint.Name
        else
          if entityPrefixConfig.PrefixEntityName = true then
            entityPrefixConfig.Prefix ++ "."
              ++ ReplaceAll "web server" ' ' entityPrefixConfig.SpaceReplacement ++ "."
              ++ spacedTagPoint.Name
          else entityPrefixConfig.Prefix ++ "." ++ spacedTagPoint.Name) ∧
      (MetricPointToOpenTSDBString entityPrefixConfig fmt42 (fun _ => RangeOrder.stored)
          (some spacedTagPoint) "web server").1 =
        "put " ++ name ++ " " ++ fmtInt64 spacedTagPoint.Timestamp ++ " "
          ++ fmt42 spacedTagPoint.Value ++ " "
          ++ String.intercalate " " (tags.map fun t => t.Name ++ "=" ++ t.Value) ++ "\n" ∧
      (∀ t ∈ spacedTagPoint.Tags,
        ∃ v, (⟨ReplaceAll t.Name ' ' entityPrefixConfig.SpaceReplacement, v⟩ : MetricTag) ∈ tags ∧
          (v = ReplaceAll "web server" ' ' entityPrefixConfig.SpaceReplacement ∨
            ∃ u ∈ spacedTagPoint.Tags,
              ReplaceAll u.Name ' ' entityPrefixConfig.SpaceReplacement =
                ReplaceAll t.Name ' ' entityPrefixConfig.SpaceReplacement ∧
              v = ReplaceAll u.Value ' ' entityPrefixConfig.SpaceReplacement)) ∧
      Contains name ' ' = false ∧
      (∀ t ∈ tags, Contains t.Name ' ' = false ∧ Contains t.Value ' ' = false) ∧
      ("put " ++ name ++ " " ++ fmtInt64 spacedTagPoint.Timestamp ++ " "
          ++ fmt42 spacedTagPoint.Value ++ " "
          ++ String.intercalate " "
            (tags.map fun t => t.Name ++ "=" ++ t.Value)).data.splitOn ' '
        = "put".data :: name.data :: (fmtInt64 spacedTagPoint.Timestamp).data
          :: (fmt42 spacedTagPoint.Value).data
          :: tags.map fun t => (t.Name ++ "=" ++ t.Value).data :=
  ⟨by decide, by decide, by decide, by decide, by decide, by decide,
    no_space_in_fields entityPrefixConfig fmt42 (fun _ => RangeOrder.stored)
      spacedTagPoint "web server" (by decide) (by decide) (by decide) (by decide) (by decide)⟩

end OpenTSDB
